import Mathlib

/-! # ThreadPool (Origin variant): a shallow embedding

The development follows the C++ sources under `Origin/`:

* `include/any.h`      : `Any`, a type-erased value container;
* `src/sem.cpp`        : `Semaphore`;
* `src/result.cpp`     : `Impl` (shared completion state) and `Result`;
* `src/task.cpp`       : `Task::exec`, `Task::setResult`;
* `src/thread.cpp`     : `Thread` and the static counter `generateId_`;
* `src/threadpool.cpp` : `ThreadPool`.

Conventions.  Objects that are shared through smart pointers live in an
explicit heap (`World`); a `std::shared_ptr` / `std::weak_ptr` is an
`Option Nat` (`none` is the null pointer).  `std::atomic_uint` counters are
natural numbers reduced modulo `2^32` after every update; `size_t` values are
natural numbers (wrap-around at `2^64` is not modelled).  A blocking call is a
function that may answer `blocked`.
-/

namespace ThreadPoolSpec

/-! ## Exceptions and call outcomes -/

/-- The two exception classes thrown by the sources. -/
inductive CppException where
  | bad_cast
  | runtime_error (what : String)
deriving DecidableEq, Repr

/-- Outcome of a call that may return a value, throw, or stay blocked on a
condition variable; every case carries the state the call leaves behind. -/
inductive Outcome (α σ : Type) where
  | returned (value : α) (after : σ)
  | threw (e : CppException) (after : σ)
  | blocked (after : σ)

/-! ## `any.h` -/

section AnyModel

variable {Ty : Type} [DecidableEq Ty] {El : Ty → Type}

/-- Models `class Any`: `base_` is a `std::unique_ptr<Base>`; when it is not null it
points to a `Derive<T>` holding `data_ : T`.  `Ty` is the collection of C++
types and `El T` the values of type `T`. -/
structure Any {Ty : Type} (El : Ty → Type) where
  base_ : Option (Sigma El)

/-- Models `Any() = default` : `base_` is null. -/
def Any.empty : Any El := ⟨none⟩

/-- Models `template<typename T> Any(T data) : base_(std::make_unique<Derive<T>>(data))`. -/
def Any.ofValue (T : Ty) (data : El T) : Any El := ⟨some ⟨T, data⟩⟩

/-- Models `bool has_value() const { return base_ != nullptr; }` -/
def Any.has_value (a : Any El) : Bool := a.base_.isSome

/-- Models `template<typename T> T cast()`: `dynamic_cast<Derive<T>*>(base_.get())`
is null when `base_` is null or when the object is a `Derive<U>` with
`U ≠ T`; a null result throws `std::bad_cast`, otherwise `pd->data_` is
returned. -/
def Any.cast (a : Any El) (T : Ty) : Except CppException (El T) :=
  match a.base_ with
  | none => .error .bad_cast
  | some ⟨U, data⟩ => if h : U = T then .ok (h ▸ data) else .error .bad_cast

end AnyModel

/-- A small concrete collection of C++ types, used to evaluate the model. -/
inductive CppTy where
  | int_
  | ull
  | cstr
deriving DecidableEq, Repr

/-- Values of the types in `CppTy`. -/
def CppTy.El : CppTy → Type
  | .int_ => Int
  | .ull => Nat
  | .cstr => String

/-! ## `sem.cpp` -/

/-- Models `class Semaphore` (the mutex and the condition variable carry no data). -/
structure Semaphore where
  isExit_ : Bool
  resourceCount_ : Nat
deriving DecidableEq, Repr

/-- Models `Semaphore::Semaphore(size_t count)`. -/
def Semaphore.new (count : Nat) : Semaphore := ⟨false, count⟩

/-- Models `Semaphore::~Semaphore() { isExit_ = true; }`; it ends the
lifetime of the object. -/
def Semaphore.destroy (s : Semaphore) : Semaphore := { s with isExit_ := true }

/-- Models `Semaphore::wait()`.  `none`: the predicate `resourceCount_ > 0` is false
and the caller stays blocked in `cond_.wait`. -/
def Semaphore.wait (s : Semaphore) : Option Semaphore :=
  if s.isExit_ then some s
  else if s.resourceCount_ > 0 then some { s with resourceCount_ := s.resourceCount_ - 1 }
  else none

/-- Models `Semaphore::post()`. -/
def Semaphore.post (s : Semaphore) : Semaphore :=
  if s.isExit_ then s else { s with resourceCount_ := s.resourceCount_ + 1 }

/-! ## `result.cpp`, `task.cpp` -/

section ResultModel

variable {Ty : Type} {El : Ty → Type} {σ : Type}

/-- Models `class Impl`. -/
structure Impl {Ty : Type} (El : Ty → Type) where
  any_ : Any El
  sem_ : Semaphore
  isValid_ : Bool
  isGet_ : Bool

/-- Models `Impl::Impl(bool isValid) : isValid_(isValid), isGet_(false)`; `any_` and
`sem_` are default-constructed. -/
def Impl.new (isValid : Bool) : Impl El :=
  { any_ := Any.empty, sem_ := Semaphore.new 0, isValid_ := isValid, isGet_ := false }

/-- Models `void Impl::set(Any any) { any_ = std::move(any); sem_.post(); }` -/
def Impl.set (i : Impl El) (any : Any El) : Impl El :=
  { i with any_ := any, sem_ := i.sem_.post }

/-- Models `Any Impl::get()`: throws when `isGet_`, otherwise waits on the
semaphore, sets `isGet_` and moves `any_` out (a moved-from `Any` has a null
`base_`). -/
def Impl.get (i : Impl El) : Outcome (Any El) (Impl El) :=
  if i.isGet_ then .threw (.runtime_error "Result already retrieved") i
  else
    match i.sem_.wait with
    | none => .blocked i
    | some sem => .returned i.any_ { i with any_ := Any.empty, sem_ := sem, isGet_ := true }

/-- Models `bool Impl::isValid() const`. -/
def Impl.isValid (i : Impl El) : Bool := i.isValid_

/-- Models `class Task`: `impl_` is the `std::weak_ptr<Impl>`; `self` stands for the
data members of the user's derived class and `run` for its override of the
pure virtual `Any run()`, which may read and update those members. -/
structure Task {Ty : Type} (El : Ty → Type) (σ : Type) where
  impl_ : Option Nat
  self : σ
  run : σ → Any El × σ

/-- The heap.  `impls a = some i`: an `Impl` owned by a live `Result` is at
address `a`; `none`: nothing was allocated there or the object was destroyed.
`nextImpl` is the address `std::make_shared<Impl>` hands out next.  `tasks t`
is the `Task` object behind the `std::shared_ptr<Task>` with address `t`.
`runLog` records the calls of the virtual `run()`: the address of the task
on which it was invoked, oldest call first. -/
structure World {Ty : Type} (El : Ty → Type) (σ : Type) where
  impls : Nat → Option (Impl El)
  nextImpl : Nat
  tasks : Nat → Task El σ
  runLog : List Nat

/-- Models `void Task::setResult(const std::weak_ptr<Impl>& impl) { impl_ = impl; }` -/
def Task.setResult (t : Nat) (impl : Option Nat) (w : World El σ) : World El σ :=
  { w with tasks := Function.update w.tasks t { w.tasks t with impl_ := impl } }

/-- Models `void Task::exec() { if(auto impl = impl_.lock()) impl->set(std::move(this->run())); }`
`lock()` yields a null pointer when the weak pointer is empty or the `Impl`
is gone; only when it succeeds is `run()` invoked (and logged). -/
def Task.exec (t : Nat) (w : World El σ) : World El σ :=
  match (w.tasks t).impl_ with
  | none => w
  | some a =>
    match w.impls a with
    | none => w
    | some impl =>
      let out := (w.tasks t).run (w.tasks t).self
      { w with
        tasks := Function.update w.tasks t { w.tasks t with self := out.2 }
        impls := Function.update w.impls a (some (impl.set out.1))
        runLog := w.runLog ++ [t] }

/-- Models `class Result`: `impl_` is the `std::shared_ptr<Impl>`. -/
structure Result where
  impl_ : Option Nat
deriving DecidableEq, Repr

/-- Models `Result() = default`. -/
def Result.default : Result := ⟨none⟩

/-- Models `Result::Result(std::shared_ptr<Task> task, bool isValid)
  : impl_(std::make_shared<Impl>(isValid)) { if(task) task->setResult(impl_); }` -/
def Result.new (task : Option Nat) (isValid : Bool) (w : World El σ) : Result × World El σ :=
  let a := w.nextImpl
  let w1 : World El σ :=
    { w with impls := Function.update w.impls a (some (Impl.new isValid)), nextImpl := a + 1 }
  match task with
  | some t => (⟨some a⟩, Task.setResult t (some a) w1)
  | none => (⟨some a⟩, w1)

/-- Destruction of a `Result`: it is the only owner of its `Impl`, which is
destroyed with it. -/
def Result.destroy (r : Result) (w : World El σ) : World El σ :=
  match r.impl_ with
  | none => w
  | some a => { w with impls := Function.update w.impls a none }

/-- Models `bool Result::isValid() const { return impl_ && impl_->isValid(); }`
(an owning pointer always has a target; a handle without one is read as null). -/
def Result.isValid (r : Result) (w : World El σ) : Bool :=
  match r.impl_ with
  | none => false
  | some a =>
    match w.impls a with
    | none => false
    | some i => i.isValid

/-- Models `Any Result::get()`. -/
def Result.get (r : Result) (w : World El σ) : Outcome (Any El) (World El σ) :=
  match r.impl_ with
  | none => .threw (.runtime_error "Invalid result") w
  | some a =>
    match w.impls a with
    | none => .threw (.runtime_error "Invalid result") w
    | some i =>
      if !i.isValid then .threw (.runtime_error "Invalid result") w
      else
        match i.get with
        | .returned any i1 => .returned any { w with impls := Function.update w.impls a (some i1) }
        | .threw e i1 => .threw e { w with impls := Function.update w.impls a (some i1) }
        | .blocked i1 => .blocked { w with impls := Function.update w.impls a (some i1) }

end ResultModel

/-! ## `thread.cpp` -/

/-- Conversion to `unsigned int` (the value type of `std::atomic_uint`). -/
def u32 (n : Nat) : Nat := n % 4294967296

/-- Models `x++` on a `std::atomic_uint`: the successor modulo `2^32`. -/
def inc32 (n : Nat) : Nat := (n + 1) % 4294967296

/-- Models `x--` on a `std::atomic_uint`: the predecessor modulo `2^32`
(`0` wraps to `UINT_MAX`). -/
def dec32 (n : Nat) : Nat :=
  if n % 4294967296 = 0 then 4294967295 else n % 4294967296 - 1

/-- Models `class Thread`; `func_` is always `ThreadPool::threadFunc` bound to the
pool, so only `threadId_` is kept. -/
structure Thread where
  threadId_ : Nat
deriving DecidableEq, Repr

/-- Models `int threadId = ptr->getId();` followed by the use of `threadId` as a
`size_t` key: the identifier is narrowed to a 32-bit `int` and widened again. -/
def intKey (id : Nat) : Nat :=
  if id % 4294967296 < 2147483648 then id % 4294967296
  else 18446744069414584320 + id % 4294967296

/-- Models `std::unordered_map::emplace`: no effect when the key is present. -/
def emplace (k : Nat) (t : Thread) (m : List (Nat × Thread)) : List (Nat × Thread) :=
  match m.lookup k with
  | some _ => m
  | none => m ++ [(k, t)]

/-- Models `std::unordered_map::erase(key)`. -/
def erase (k : Nat) (m : List (Nat × Thread)) : List (Nat × Thread) :=
  m.filter fun e => e.1 != k

/-! ## `threadpool.cpp` -/

/-- Models `enum class PoolMode`. -/
inductive PoolMode where
  | MODE_FIXED
  | MODE_CACHED
deriving DecidableEq, Repr

/-- Models `const int TASK_MAX_THRESHOLD = INT32_MAX;` -/
def TASK_MAX_THRESHOLD : Nat := 2147483647

/-- Models `const int THREAD_MAX_THRESHOLD = 1024;` -/
def THREAD_MAX_THRESHOLD : Nat := 1024

/-- Models `const int THREAD_MAX_IDLE_TIME = 60;` -/
def THREAD_MAX_IDLE_TIME : Int := 60

/-- Data members of `class ThreadPool`.  `threads_` is the `unordered_map`
from thread id to `Thread`; `taskQue_` holds `std::shared_ptr<Task>` values,
head first.  Of the synchronisation members only `exitCond_` is kept, the
condition variable the destructor waits on: it is the number of
`exitCond_.notify_all()` calls made so far. -/
structure ThreadPool where
  threads_ : List (Nat × Thread)
  initThreadSize_ : Nat
  threadSizeThreshold_ : Nat
  curThreadSize_ : Nat
  idleThreadSize_ : Nat
  taskQue_ : List (Option Nat)
  taskSize_ : Nat
  taskQueMaxThreshold_ : Nat
  isPoolRunning_ : Bool
  poolMode_ : PoolMode
  exitCond_ : Nat
deriving DecidableEq, Repr

/-- Models `ThreadPool::ThreadPool()`. -/
def ThreadPool.new : ThreadPool :=
  { threads_ := []
    initThreadSize_ := 0
    threadSizeThreshold_ := THREAD_MAX_THRESHOLD
    curThreadSize_ := 0
    idleThreadSize_ := 0
    taskQue_ := []
    taskSize_ := 0
    taskQueMaxThreshold_ := TASK_MAX_THRESHOLD
    isPoolRunning_ := false
    poolMode_ := PoolMode.MODE_FIXED
    exitCond_ := 0 }

/-- Models `bool ThreadPool::checkRunningState() const`. -/
def ThreadPool.checkRunningState (p : ThreadPool) : Bool := p.isPoolRunning_

/-- Models `void ThreadPool::setMode(PoolMode mode)`. -/
def ThreadPool.setMode (mode : PoolMode) (p : ThreadPool) : ThreadPool :=
  if p.checkRunningState then p else { p with poolMode_ := mode }

/-- Models `void ThreadPool::setTaskQueMaxThreshold(size_t threshold)`. -/
def ThreadPool.setTaskQueMaxThreshold (threshold : Nat) (p : ThreadPool) : ThreadPool :=
  if p.checkRunningState then p else { p with taskQueMaxThreshold_ := threshold }

/-- Models `void ThreadPool::setThreadSizeThreshold(size_t threadhold)`. -/
def ThreadPool.setThreadSizeThreshold (threadhold : Nat) (p : ThreadPool) : ThreadPool :=
  if p.checkRunningState then p
  else if p.poolMode_ = PoolMode.MODE_CACHED then { p with threadSizeThreshold_ := threadhold }
  else p

section PoolModel

variable {Ty : Type} {El : Ty → Type} {σ : Type}

/-- The process: one pool, the static `Thread::generateId_`, the log of the
thread ids handed to `std::thread` by `Thread::start()` (oldest first), and
the heap of tasks and completion states. -/
structure Sys {Ty : Type} (El : Ty → Type) (σ : Type) where
  pool : ThreadPool
  generateId_ : Nat
  launched : List Nat
  heap : World El σ

/-- A process in which the pool has just been constructed. -/
def Sys.init (generateId : Nat) (w : World El σ) : Sys El σ :=
  { pool := ThreadPool.new, generateId_ := generateId, launched := [], heap := w }

/-- The growth step of `submitTask` (the body of the `MODE_CACHED` branch):
a `Thread` is constructed (`threadId_(generateId_++)`), emplaced under
`int threadId`, the entry `threads_[threadId]` is started, and both counters
are incremented.  After `emplace` the key is present, so `operator[]` finds
an entry. -/
def ThreadPool.spawnOne (s : Sys El σ) : Sys El σ :=
  let th : Thread := ⟨s.generateId_⟩
  let threadId := intKey th.threadId_
  let threads := emplace threadId th s.pool.threads_
  { s with
    generateId_ := s.generateId_ + 1
    launched :=
      match threads.lookup threadId with
      | some t => s.launched ++ [t.threadId_]
      | none => s.launched
    pool := { s.pool with
      threads_ := threads
      curThreadSize_ := inc32 s.pool.curThreadSize_
      idleThreadSize_ := inc32 s.pool.idleThreadSize_ } }

/-- Models `Result ThreadPool::submitTask(std::shared_ptr<Task> task)`, from the
moment `taskQueNotFull_.wait_for` returns with the lock held.  `wait_for`
with a predicate returns the value of the predicate
`taskQue_.size() < taskQueMaxThreshold_`; it returns `false` exactly when the
timeout elapsed with the predicate still false. -/
def ThreadPool.submitTask (task : Option Nat) (s : Sys El σ) : Result × Sys El σ :=
  if s.pool.taskQue_.length < s.pool.taskQueMaxThreshold_ then
    let s1 : Sys El σ :=
      { s with pool := { s.pool with
          taskQue_ := s.pool.taskQue_ ++ [task]
          taskSize_ := inc32 s.pool.taskSize_ } }
    let s2 : Sys El σ :=
      if s1.pool.poolMode_ = PoolMode.MODE_CACHED
          ∧ s1.pool.taskSize_ > s1.pool.idleThreadSize_
          ∧ s1.pool.curThreadSize_ < s1.pool.threadSizeThreshold_ then
        ThreadPool.spawnOne s1
      else s1
    let out := Result.new task true s2.heap
    (out.1, { s2 with heap := out.2 })
  else
    let out := Result.new task false s.heap
    (out.1, { s with heap := out.2 })

/-- First loop of `start`: `k` threads are constructed and emplaced. -/
def ThreadPool.startCreate : Nat → List (Nat × Thread) × Nat → List (Nat × Thread) × Nat
  | 0, x => x
  | k + 1, (m, g) => ThreadPool.startCreate k (emplace (intKey g) ⟨g⟩ m, g + 1)

/-- Second loop of `start`, over the indices still to visit:
`threads_[i]->start(); idleThreadSize_++`.  When the key `i` is absent,
`operator[]` inserts a null `unique_ptr` and the call through it is undefined
behaviour: the answer is `none`. -/
def ThreadPool.startLaunch (m : List (Nat × Thread)) :
    List Nat → List Nat × Nat → Option (List Nat × Nat)
  | [], x => some x
  | i :: rest, (launched, idle) =>
    match m.lookup i with
    | none => none
    | some t => ThreadPool.startLaunch m rest (launched ++ [t.threadId_], inc32 idle)

/-- Models `void ThreadPool::start(size_t initThreadSize)`; `none` is undefined
behaviour (see `startLaunch`). -/
def ThreadPool.start (initThreadSize : Nat) (s : Sys El σ) : Option (Sys El σ) :=
  let created := ThreadPool.startCreate initThreadSize (s.pool.threads_, s.generateId_)
  match ThreadPool.startLaunch created.1 (List.range initThreadSize)
      (s.launched, s.pool.idleThreadSize_) with
  | none => none
  | some (launched, idle) =>
    some { s with
      generateId_ := created.2
      launched := launched
      pool := { s.pool with
        isPoolRunning_ := true
        initThreadSize_ := initThreadSize
        curThreadSize_ := u32 initThreadSize
        threads_ := created.1
        idleThreadSize_ := idle } }

/-- Where a worker thread stands inside `threadFunc`. -/
inductive WorkerPc where
  | acquire
  | waitTimed
  | waitForever
  | running (task : Option Nat)
  | exited
deriving DecidableEq, Repr

/-- Models `threadFunc`, one evaluation of the `while(taskQue_.size() == 0)` test
with the lock held, up to the next wait, exit, or the end of the locked block.
Queue empty: exit (`threads_.erase(threadId); exitCond_.notify_all();`) when
the pool is not running, otherwise go to the timed wait (`MODE_CACHED`) or
the plain wait.  Queue non-empty: `idleThreadSize_--`, take the head,
`taskSize_--`. -/
def ThreadPool.threadFunc_check (threadId : Nat) (p : ThreadPool) : WorkerPc × ThreadPool :=
  match p.taskQue_ with
  | [] =>
    if !p.isPoolRunning_ then
      (.exited, { p with threads_ := erase threadId p.threads_, exitCond_ := p.exitCond_ + 1 })
    else if p.poolMode_ = PoolMode.MODE_CACHED then (.waitTimed, p)
    else (.waitForever, p)
  | task :: rest =>
    (.running task,
      { p with
        idleThreadSize_ := dec32 p.idleThreadSize_
        taskQue_ := rest
        taskSize_ := dec32 p.taskSize_ })

/-- Models `threadFunc`, return from `taskQueNotEmpty_.wait_for(lock, 1s)` in
`MODE_CACHED`.  `timedOut` tells whether the status is `cv_status::timeout`
and `duration` is the number of seconds since `lastTime`.  The exit taken
here is `threads_.erase(threadId); curThreadSize_--; idleThreadSize_--;
return;` and makes no call on `exitCond_`. -/
def ThreadPool.threadFunc_timedWake (threadId : Nat) (timedOut : Bool) (duration : Int)
    (p : ThreadPool) : WorkerPc × ThreadPool :=
  if timedOut ∧ duration ≥ THREAD_MAX_IDLE_TIME ∧ p.curThreadSize_ > p.initThreadSize_ then
    (.exited,
      { p with
        threads_ := erase threadId p.threads_
        curThreadSize_ := dec32 p.curThreadSize_
        idleThreadSize_ := dec32 p.idleThreadSize_ })
  else (.acquire, p)

/-- Models `threadFunc`, after the locked block:
`if(task != nullptr) task->exec(); idleThreadSize_++;`. -/
def ThreadPool.threadFunc_run (task : Option Nat) (s : Sys El σ) : Sys El σ :=
  { s with
    heap :=
      match task with
      | some t => Task.exec t s.heap
      | none => s.heap
    pool := { s.pool with idleThreadSize_ := inc32 s.pool.idleThreadSize_ } }

/-- A worker thread: its argument `threadId` and its position in `threadFunc`. -/
structure Worker where
  threadId : Nat
  pc : WorkerPc
deriving DecidableEq, Repr

/-- One step of a worker thread running `threadFunc`.  `timedOut` and
`duration` are read only on return from the timed wait. -/
def ThreadPool.threadFunc (timedOut : Bool) (duration : Int) (wk : Worker) (s : Sys El σ) :
    Worker × Sys El σ :=
  match wk.pc with
  | .acquire =>
    let out := ThreadPool.threadFunc_check wk.threadId s.pool
    ({ wk with pc := out.1 }, { s with pool := out.2 })
  | .waitTimed =>
    let out := ThreadPool.threadFunc_timedWake wk.threadId timedOut duration s.pool
    ({ wk with pc := out.1 }, { s with pool := out.2 })
  | .waitForever => ({ wk with pc := .acquire }, s)
  | .running task => ({ wk with pc := .acquire }, ThreadPool.threadFunc_run task s)
  | .exited => (wk, s)

end PoolModel

/-! ## `main.cpp` -/

/-- Models the loop of `MyTask::run`:
`for(int i = begin_; i <= end_; ++i) sum += i;` with `sum` an
`unsigned long long` (the `int` is converted to it, the addition is modulo
`2^64`).  `++i` on `INT_MAX` is undefined behaviour, and so is running out of
`fuel` (one unit per evaluation of the loop test): both give `none`. -/
def MyTask.loop (end_ : Int) : Nat → Int → Nat → Option Nat
  | 0, _, _ => none
  | fuel + 1, i, sum =>
    if i ≤ end_ then
      if i = 2147483647 then none
      else
        MyTask.loop end_ fuel (i + 1)
          ((sum + (i % 18446744073709551616).toNat) % 18446744073709551616)
    else some sum

/-- Models `Any MyTask::run()` of `MyTask(begin_, end_)`: the sum starts at 0
and is returned as an `Any` holding an `unsigned long long`. -/
def MyTask.run (fuel : Nat) (begin_ end_ : Int) : Option (Any CppTy.El) :=
  (MyTask.loop end_ fuel begin_ 0).map fun sum => Any.ofValue CppTy.ull sum

/-- Models `r1 + r2 + r3 + r4` of `main` on `unsigned long long` values. -/
def mainTotal (r1 r2 r3 r4 : Nat) : Nat :=
  (((r1 + r2) % 18446744073709551616 + r3) % 18446744073709551616 + r4) % 18446744073709551616

/-- Follows the spec's words: the exact sum of the integers `b..e`. -/
def sumFromTo (b e : Nat) : Nat := (List.range' b (e + 1 - b)).sum

/-! ## Auxiliary definitions for the statements -/

/-- The heap a call of `Result::get` leaves behind, whatever its outcome. -/
def Result.afterGet {Ty : Type} {El : Ty → Type} {σ : Type}
    (r : Result) (w : World El σ) : World El σ :=
  match r.get w with
  | .returned _ w1 => w1
  | .threw _ w1 => w1
  | .blocked w1 => w1

/-- A heap with no completion state, in which every task is unbound, counts
its runs in `self` and returns `5050 + self` as an `unsigned long long`. -/
def World.sample : World CppTy.El Nat :=
  { impls := fun _ => none
    nextImpl := 0
    tasks := fun _ =>
      { impl_ := none
        self := 0
        run := fun n => (Any.ofValue CppTy.ull (5050 + n : Nat), n + 1) }
    runLog := [] }

/-- The heap after `Result r(task0)` on `World.sample`. -/
def World.bound : World CppTy.El Nat := (Result.new (some 0) true World.sample).2

/-- The heap after `Result r(task0); task0->exec();` on `World.sample`. -/
def World.published : World CppTy.El Nat := Task.exec 0 World.bound

/-- The heap after `Result r(task0); task0->exec(); r.get();` on `World.sample`. -/
def World.retrieved : World CppTy.El Nat := Result.afterGet ⟨some 0⟩ World.published

section HeapModel

variable {Ty : Type} {El : Ty → Type} {σ : Type}

/-- Whether `impl_.lock()` in `Task::exec` of task `t` yields a non-null
pointer: the task is bound to a completion state that still exists. -/
def Task.locks (t : Nat) (w : World El σ) : Bool :=
  match (w.tasks t).impl_ with
  | none => false
  | some a => (w.impls a).isSome

/-- Calls that act on the heap: `task->exec()`, `Impl::set` on the state at
an address, `get()` on a `Result`, and the construction of a `Result`. -/
inductive HeapOp {Ty : Type} (El : Ty → Type) where
  | exec (t : Nat)
  | set (a : Nat) (any : Any El)
  | get (r : Result)
  | make (task : Option Nat) (isValid : Bool)

/-- The heap after one call (whatever a `get` answers; a `set` on an address
without an `Impl` is no call at all). -/
def HeapOp.apply (w : World El σ) : HeapOp El → World El σ
  | .exec t => Task.exec t w
  | .set a any =>
    match w.impls a with
    | some i => { w with impls := Function.update w.impls a (some (i.set any)) }
    | none => w
  | .get r => Result.afterGet r w
  | .make task isValid => (Result.new task isValid w).2

/-- The heap after a sequence of calls, first call first. -/
def HeapOp.runAll : List (HeapOp El) → World El σ → World El σ
  | [], w => w
  | op :: ops, w => HeapOp.runAll ops (HeapOp.apply w op)

end HeapModel

/-- After the first `get()`: `exec` again (a second `set` on the state),
a direct `set`, a new `Result` over another task, and a failed `get()`. -/
def HeapOp.demo : List (HeapOp CppTy.El) :=
  [HeapOp.exec 0, HeapOp.set 0 (Any.ofValue CppTy.ull (7 : Nat)), HeapOp.make (some 1) true,
    HeapOp.get ⟨some 0⟩]

section MachineModel

variable {Ty : Type} {El : Ty → Type} {σ : Type}

/-- The process together with its worker threads (every thread started by
`Thread::start()` runs `threadFunc(threadId_)`) and two logs kept for the
statements, each oldest first: the tasks of the submissions for which
`submitTask` returned a valid `Result`, and the tasks `threadFunc` took from
the queue.  What is executed is read from the heap (`World.runLog`, written
by `Task.exec`). -/
structure Machine {Ty : Type} (El : Ty → Type) (σ : Type) where
  sys : Sys El σ
  workers : List Worker
  accepted : List (Option Nat)
  dequeued : List (Option Nat)

/-- What can happen next: a caller's `submitTask` reaches the end of its
`wait_for`, or worker number `k` takes its next step. -/
inductive Event where
  | submit (task : Option Nat)
  | work (k : Nat) (timedOut : Bool) (duration : Int)
deriving DecidableEq, Repr

/-- A machine with the given process and worker threads and empty logs. -/
def Machine.boot (s : Sys El σ) (workers : List Worker) : Machine El σ :=
  { sys := s, workers := workers, accepted := [], dequeued := [] }

/-- The tasks currently in the hands of workers (taken from the queue and
not yet past `exec`). -/
def Machine.held (workers : List Worker) : List (Option Nat) :=
  workers.filterMap fun wk =>
    match wk.pc with
    | .running task => some task
    | _ => none

/-- The threads started since the log of launches had length `n`, each at the
beginning of `threadFunc`. -/
def Machine.newWorkers (n : Nat) (launched : List Nat) : List Worker :=
  (launched.drop n).map fun id => { threadId := id, pc := WorkerPc.acquire }

/-- The number of worker threads that have not left `threadFunc`. -/
def Machine.liveCount (workers : List Worker) : Nat :=
  workers.countP fun wk => decide (wk.pc ≠ WorkerPc.exited)

/-- One event. -/
def Machine.step (m : Machine El σ) : Event → Machine El σ
  | .submit task =>
    let out := ThreadPool.submitTask task m.sys
    { m with
      sys := out.2
      workers := m.workers ++ Machine.newWorkers m.sys.launched.length out.2.launched
      accepted := if out.1.isValid out.2.heap then m.accepted ++ [task] else m.accepted }
  | .work k timedOut duration =>
    match m.workers[k]? with
    | none => m
    | some wk =>
      let out := ThreadPool.threadFunc timedOut duration wk m.sys
      { m with
        sys := out.2
        workers := m.workers.set k out.1
        dequeued :=
          match wk.pc, out.1.pc with
          | .acquire, .running task => m.dequeued ++ [task]
          | _, _ => m.dequeued }

/-- A sequence of events, first event first. -/
def Machine.run : List Event → Machine El σ → Machine El σ
  | [], m => m
  | e :: es, m => Machine.run es (m.step e)

/-- The event is not a submission of `task`. -/
def Event.avoids (task : Option Nat) : Event → Prop
  | .submit t => t ≠ task
  | .work _ _ _ => True

/-- Calls and worker steps acting on the process, for reachability. -/
inductive PoolOp where
  | setMode (mode : PoolMode)
  | setTaskQueMaxThreshold (threshold : Nat)
  | setThreadSizeThreshold (threadhold : Nat)
  | start (initThreadSize : Nat)
  | submitTask (task : Option Nat)
  | check (threadId : Nat)
  | timedWake (threadId : Nat) (timedOut : Bool) (duration : Int)
  | run (task : Option Nat)
deriving DecidableEq, Repr

/-- Effect of one operation; `none` only for a `start` with undefined
behaviour. -/
def PoolOp.apply (s : Sys El σ) : PoolOp → Option (Sys El σ)
  | .setMode mode => some { s with pool := s.pool.setMode mode }
  | .setTaskQueMaxThreshold n => some { s with pool := s.pool.setTaskQueMaxThreshold n }
  | .setThreadSizeThreshold n => some { s with pool := s.pool.setThreadSizeThreshold n }
  | .start n => ThreadPool.start n s
  | .submitTask task => some (ThreadPool.submitTask task s).2
  | .check threadId => some { s with pool := (ThreadPool.threadFunc_check threadId s.pool).2 }
  | .timedWake threadId timedOut duration =>
    some { s with pool := (ThreadPool.threadFunc_timedWake threadId timedOut duration s.pool).2 }
  | .run task => some (ThreadPool.threadFunc_run task s)

/-- A sequence of operations, first operation first. -/
def PoolOp.runAll : List PoolOp → Sys El σ → Option (Sys El σ)
  | [], s => some s
  | op :: ops, s =>
    match op.apply s with
    | none => none
    | some s1 => PoolOp.runAll ops s1

/-- The operation does not lower the maximum queue length below the current
queue length: it is not a `setTaskQueMaxThreshold(n)` that takes effect with
`n` smaller than the number of queued tasks. -/
def PoolOp.keepsBound (s : Sys El σ) : PoolOp → Bool
  | .setTaskQueMaxThreshold n => s.pool.isPoolRunning_ || decide (s.pool.taskQue_.length ≤ n)
  | _ => true

/-- Every operation of the sequence keeps the bound in the state it acts on. -/
def PoolOp.allKeepBound : List PoolOp → Sys El σ → Bool
  | [], _ => true
  | op :: ops, s =>
    op.keepsBound s &&
      match op.apply s with
      | none => true
      | some s1 => PoolOp.allKeepBound ops s1

end MachineModel

/-- A process with a newly constructed pool over `World.sample`. -/
def Sys.sample : Sys CppTy.El Nat := Sys.init 0 World.sample

/-- A machine whose pool has maximum queue length 1 and holds task 1 in its
queue: `setTaskQueMaxThreshold(1); submitTask(task1);` on `Sys.sample`. -/
def Machine.full : Machine CppTy.El Nat :=
  (Machine.boot { Sys.sample with pool := ThreadPool.new.setTaskQueMaxThreshold 1 } []).step
    (Event.submit (some 1))

/-- A machine whose pool has maximum queue length 1, one worker thread and
task 1 in its queue: `setTaskQueMaxThreshold(1); start(1);
submitTask(task1);` on `Sys.sample`. -/
def Machine.busy : Machine CppTy.El Nat :=
  match ThreadPool.start 1 { Sys.sample with pool := ThreadPool.new.setTaskQueMaxThreshold 1 } with
  | some s => (Machine.boot s (Machine.newWorkers 0 s.launched)).step (Event.submit (some 1))
  | none => Machine.boot Sys.sample []

/-- A machine after `start(1)` on `Sys.sample`: a `MODE_FIXED` pool with
its single worker thread. -/
def Machine.single : Machine CppTy.El Nat :=
  match ThreadPool.start 1 Sys.sample with
  | some s => Machine.boot s (Machine.newWorkers 0 s.launched)
  | none => Machine.boot Sys.sample []

/-- Submit task 0, submit task 1, then four steps of worker 0 (take, run,
take, run). -/
def Event.demo : List Event :=
  [Event.submit (some 0), Event.submit (some 1), Event.work 0 false 0, Event.work 0 false 0,
    Event.work 0 false 0, Event.work 0 false 0]

/-- Configuration before the first submission, then use:
`setTaskQueMaxThreshold(2); start(1);` three submissions (the third is
rejected) and one pass of worker 0 through the locked part of `threadFunc`. -/
def PoolOp.demo : List PoolOp :=
  [PoolOp.setTaskQueMaxThreshold 2, PoolOp.start 1, PoolOp.submitTask (some 0),
    PoolOp.submitTask (some 1), PoolOp.submitTask (some 2), PoolOp.check 0]

/-- An elastic pool before `start`: `setMode(MODE_CACHED);
setThreadSizeThreshold(2);` on `Sys.sample`. -/
def Sys.elastic : Sys CppTy.El Nat :=
  { Sys.sample with
    pool := (ThreadPool.new.setMode PoolMode.MODE_CACHED).setThreadSizeThreshold 2 }

/-- The process `Sys.elastic` after `start(1)`. -/
def Sys.elasticStarted : Sys CppTy.El Nat :=
  match ThreadPool.start 1 Sys.elastic with
  | some s => s
  | none => Sys.elastic

/-- The machine of `Sys.elasticStarted` with the worker thread `start`
launched. -/
def Machine.elastic : Machine CppTy.El Nat :=
  Machine.boot Sys.elasticStarted (Machine.newWorkers 0 Sys.elasticStarted.launched)

/-- Four submissions in a row, then worker 0 takes a task and runs it. -/
def Event.burst : List Event :=
  [Event.submit (some 0), Event.submit (some 1), Event.submit (some 2), Event.submit (some 3),
    Event.work 0 false 0, Event.work 0 false 0]

/-- Models `ThreadPool::~ThreadPool()` up to its wait on `exitCond_`:
`isPoolRunning_ = false` (the notification of the workers carries no data). -/
def ThreadPool.destroy (p : ThreadPool) : ThreadPool :=
  { p with isPoolRunning_ := false }

/-- The predicate of the destructor's `exitCond_.wait`:
`threads_.size() == 0`. -/
def ThreadPool.allExited (p : ThreadPool) : Bool := p.threads_.length == 0

/-- A call on a semaphore. -/
inductive SemCall where
  | wait
  | post
deriving DecidableEq, Repr

/-- A semaphore with the numbers of completed `post` and `wait` calls. -/
structure SemLog where
  sem : Semaphore
  posts : Nat
  waits : Nat
deriving DecidableEq, Repr

/-- A semaphore just constructed with `count`, no call completed yet. -/
def SemLog.start (count : Nat) : SemLog := ⟨Semaphore.new count, 0, 0⟩

/-- One call: a `post` always completes; a `wait` completes when
`Semaphore.wait` returns, and otherwise its caller stays blocked and nothing
changes. -/
def SemLog.step (l : SemLog) : SemCall → SemLog
  | .post => { l with sem := l.sem.post, posts := l.posts + 1 }
  | .wait =>
    match l.sem.wait with
    | some s => { l with sem := s, waits := l.waits + 1 }
    | none => l

/-- A sequence of calls on a semaphore constructed with `count`. -/
def SemLog.run : List SemCall → SemLog → SemLog
  | [], l => l
  | c :: cs, l => SemLog.run cs (l.step c)

/-- The process `Sys.sample` after one `Thread` object was constructed
elsewhere (for instance by another pool): `generateId_` is 1. -/
def Sys.counterAtOne : Sys CppTy.El Nat := { Sys.sample with generateId_ := 1 }

/-- The process `Sys.elastic` after `submitTask(task0)` before `start`: the
elastic pool has spawned worker 0. -/
def Sys.spawnedEarly : Sys CppTy.El Nat := (ThreadPool.submitTask (some 0) Sys.elastic).2

/-- The process `Sys.elastic` after `submitTask(task0); submitTask(task1);`
before `start`: the elastic pool (maximum 2) has spawned workers 0 and 1. -/
def Sys.spawnedTwice : Sys CppTy.El Nat := (ThreadPool.submitTask (some 1) Sys.spawnedEarly).2

/-- The process `Sys.spawnedTwice` after `start(2)`. -/
def Sys.startedLate : Sys CppTy.El Nat :=
  match ThreadPool.start 2 Sys.spawnedTwice with
  | some s => s
  | none => Sys.spawnedTwice

/-- The destructor begins on the pool of the machine. -/
def Machine.stop {Ty : Type} {El : Ty → Type} {σ : Type} (m : Machine El σ) : Machine El σ :=
  { m with sys := { m.sys with pool := m.sys.pool.destroy } }

/-- On `Machine.elastic` (maximum 2 workers, started with 1): two
submissions, the second of which spawns worker 1; each worker takes a task,
runs it, finds the queue empty and enters the timed wait. -/
def Event.settle : List Event :=
  [Event.submit (some 0), Event.submit (some 1),
    Event.work 0 false 0, Event.work 1 false 0,
    Event.work 0 false 0, Event.work 1 false 0,
    Event.work 0 false 0, Event.work 1 false 0]

/-- The machine `Machine.elastic` after `Event.settle` and one more
submission, made while both workers are inside `wait_for`. -/
def Machine.refilled : Machine CppTy.El Nat :=
  (Machine.run Event.settle Machine.elastic).step (Event.submit (some 2))

/-- Worker 0 returns from the timed wait, takes the queued task, runs it and
comes back to the loop test. -/
def Event.drain : List Event :=
  [Event.work 0 true 1, Event.work 0 false 0, Event.work 0 false 0, Event.work 0 false 0]

/-! # Properties -/

/-! ## Theorems: `Any` -/

section AnyTheorems

variable {Ty : Type} [DecidableEq Ty] {El : Ty → Type}

/-- C1: for every type `T` and value `v`, `Any(v).cast<U>()` returns `v` when
`U` is `T`, and throws `std::bad_cast` (returning no value) for every `U`
different from `T`. -/
theorem Any_cast_exact (T : Ty) (v : El T) :
    (Any.ofValue T v).cast T = Except.ok v ∧
    ∀ U : Ty, U ≠ T → (Any.ofValue T v).cast U = Except.error CppException.bad_cast := by
  refine ⟨?_, ?_⟩
  · simp [Any.ofValue, Any.cast]
  · intro U hU
    have h : ¬ T = U := fun e => hU e.symm
    simp [Any.ofValue, Any.cast, h]

/-- C2 (amended): for every requested type `T`, `cast<T>()` on an empty `Any`
(`has_value() == false`) throws `std::bad_cast` and returns no value; this is
the same exception a non-empty `Any` throws when asked for a wrong type. -/
theorem Any_cast_empty_bad_cast (T : Ty) :
    (Any.empty : Any El).has_value = false ∧
    (∀ a : Any El, a.has_value = false → a.cast T = Except.error CppException.bad_cast) ∧
    ∀ (U : Ty) (v : El U), U ≠ T →
      (Any.ofValue U v).cast T = (Any.empty : Any El).cast T := by
  refine ⟨rfl, ?_, ?_⟩
  · intro a ha
    cases a with
    | mk b =>
      cases b with
      | none => rfl
      | some x => simp [Any.has_value] at ha
  · intro U v hU
    simp [Any.ofValue, Any.cast, Any.empty, hU]

end AnyTheorems

/-- C1, evaluated: an `unsigned long long` 5050 is recovered as such and is
not recoverable as an `int`. -/
theorem Any_cast_exact_witness :
    CppTy.int_ ≠ CppTy.ull ∧
    (Any.ofValue CppTy.ull (5050 : Nat) : Any CppTy.El).cast CppTy.int_
      = Except.error CppException.bad_cast :=
  ⟨by decide, (@Any_cast_exact CppTy _ CppTy.El CppTy.ull (5050 : Nat)).2 CppTy.int_ (by decide)⟩

/-- C2 as stated fails: on an empty `Any` and on an `Any` holding an
`unsigned long long`, `cast<int>()` fails with one and the same error,
`std::bad_cast`; there is no separate empty-value error. -/
theorem Any_cast_empty_not_distinct :
    ¬ ((Any.empty : Any CppTy.El).cast CppTy.int_
        ≠ (Any.ofValue CppTy.ull (1 : Nat) : Any CppTy.El).cast CppTy.int_) ∧
    (Any.empty : Any CppTy.El).has_value = false ∧
    (Any.empty : Any CppTy.El).cast CppTy.int_ = Except.error CppException.bad_cast := by
  refine ⟨?_, rfl, rfl⟩
  intro h
  exact h rfl

/-- C2 (amended), evaluated on the empty container and on a container
holding an `unsigned long long`, both asked for an `int`. -/
theorem Any_cast_empty_bad_cast_witness :
    (Any.empty : Any CppTy.El).has_value = false ∧
    (Any.empty : Any CppTy.El).cast CppTy.int_ = Except.error CppException.bad_cast ∧
    CppTy.ull ≠ CppTy.int_ ∧
    (Any.ofValue CppTy.ull (1 : Nat) : Any CppTy.El).cast CppTy.int_
      = (Any.empty : Any CppTy.El).cast CppTy.int_ :=
  ⟨rfl,
   (@Any_cast_empty_bad_cast CppTy _ CppTy.El CppTy.int_).2.1 Any.empty rfl,
   by decide,
   (@Any_cast_empty_bad_cast CppTy _ CppTy.El CppTy.int_).2.2 CppTy.ull (1 : Nat) (by decide)⟩

/-! ## Theorems: `Result`, `Impl`, `Task` -/

section ResultTheorems

variable {Ty : Type} {El : Ty → Type} {σ : Type}

theorem World.update_impls_self (w : World El σ) (a : Nat) (i : Impl El)
    (h : w.impls a = some i) :
    ({ w with impls := Function.update w.impls a (some i) } : World El σ) = w := by
  cases w with
  | mk impls nextImpl tasks =>
    simp only at h
    simp only [World.mk.injEq, and_true]
    rw [← h]
    exact Function.update_eq_self a impls

/-- On a valid completion state whose `isGet_` flag is set, `Result::get`
throws without touching the heap, whatever the semaphore holds. -/
theorem Result.get_of_isGet (r : Result) (w : World El σ) (a : Nat) (i : Impl El)
    (hr : r.impl_ = some a) (hi : w.impls a = some i)
    (hv : i.isValid_ = true) (hg : i.isGet_ = true) :
    r.get w = Outcome.threw (CppException.runtime_error "Result already retrieved") w := by
  simp only [Result.get, hr, hi, Impl.isValid, hv, Impl.get, hg, Bool.not_true,
    Bool.false_eq_true, if_false, if_true]
  rw [World.update_impls_self w a i hi]

/-- Shape of the heap after a `Result::get` that returned. -/
theorem Result.get_returned_inv (r : Result) (w w1 : World El σ) (v : Any El)
    (h : r.get w = Outcome.returned v w1) :
    ∃ a i sem, r.impl_ = some a ∧ w.impls a = some i ∧ i.isValid_ = true ∧
      i.isGet_ = false ∧ i.sem_.wait = some sem ∧ v = i.any_ ∧
      w1 = { w with
        impls := Function.update w.impls a
          (some { i with any_ := Any.empty, sem_ := sem, isGet_ := true }) } := by
  unfold Result.get at h
  cases hr : r.impl_ with
  | none => simp [hr] at h
  | some a =>
    simp only [hr] at h
    cases hi : w.impls a with
    | none => simp [hi] at h
    | some i =>
      simp only [hi] at h
      cases hv : i.isValid_ with
      | false => simp [Impl.isValid, hv] at h
      | true =>
        simp only [Impl.isValid, hv, Bool.not_true, Bool.false_eq_true, if_false] at h
        unfold Impl.get at h
        cases hg : i.isGet_ with
        | true => simp [hg] at h
        | false =>
          simp only [hg, Bool.false_eq_true, if_false] at h
          cases hs : i.sem_.wait with
          | none => simp [hs] at h
          | some sem =>
            simp only [hs, Outcome.returned.injEq] at h
            exact ⟨a, i, sem, rfl, hi, hv, hg, hs, h.1.symm, h.2.symm⟩

/-- A completion state that is valid and already retrieved at an allocated
address stays so under every call on the heap. -/
theorem HeapOp.apply_retrieved (w : World El σ) (op : HeapOp El) (a : Nat)
    (h : a < w.nextImpl ∧ ∃ i, w.impls a = some i ∧ i.isValid_ = true ∧ i.isGet_ = true) :
    a < (HeapOp.apply w op).nextImpl ∧
      ∃ i, (HeapOp.apply w op).impls a = some i ∧ i.isValid_ = true ∧ i.isGet_ = true := by
  obtain ⟨hlt, i, hi, hv, hg⟩ := h
  cases op with
  | exec t =>
    simp only [HeapOp.apply, Task.exec]
    cases hb : (w.tasks t).impl_ with
    | none => exact ⟨hlt, i, hi, hv, hg⟩
    | some b =>
      simp only
      cases hc : w.impls b with
      | none => exact ⟨hlt, i, hi, hv, hg⟩
      | some j =>
        simp only
        refine ⟨hlt, ?_⟩
        by_cases hab : a = b
        · subst hab
          rw [hi] at hc
          cases hc
          exact ⟨_, Function.update_same _ _ _, hv, hg⟩
        · exact ⟨i, by rw [Function.update_noteq hab]; exact hi, hv, hg⟩
  | set b any =>
    simp only [HeapOp.apply]
    cases hc : w.impls b with
    | none => exact ⟨hlt, i, hi, hv, hg⟩
    | some j =>
      simp only
      refine ⟨hlt, ?_⟩
      by_cases hab : a = b
      · subst hab
        rw [hi] at hc
        cases hc
        exact ⟨_, Function.update_same _ _ _, hv, hg⟩
      · exact ⟨i, by rw [Function.update_noteq hab]; exact hi, hv, hg⟩
  | get r1 =>
    have key : ∀ (b : Nat) (j1 : Impl El), (∀ j, w.impls b = some j → b = a → j1 = j) →
        ∃ i1, Function.update w.impls b (some j1) a = some i1 ∧ i1.isValid_ = true ∧
          i1.isGet_ = true := by
      intro b j1 hj
      by_cases hab : a = b
      · subst hab
        rw [Function.update_same, hj i hi rfl]
        exact ⟨i, rfl, hv, hg⟩
      · rw [Function.update_noteq hab]
        exact ⟨i, hi, hv, hg⟩
    simp only [HeapOp.apply, Result.afterGet, Result.get]
    cases hb : r1.impl_ with
    | none => exact ⟨hlt, i, hi, hv, hg⟩
    | some b =>
      simp only
      cases hc : w.impls b with
      | none => exact ⟨hlt, i, hi, hv, hg⟩
      | some j =>
        simp only
        by_cases hval : j.isValid = true
        · simp only [hval, Bool.not_true, Bool.false_eq_true, if_false]
          unfold Impl.get
          by_cases hjg : j.isGet_ = true
          · simp only [hjg, if_true]
            exact ⟨hlt, key b j (fun j2 h2 _ => by rw [hc] at h2; cases h2; rfl)⟩
          · simp only [hjg, Bool.false_eq_true, if_false]
            have hne : b ≠ a := by
              intro hba
              subst hba
              rw [hi] at hc
              cases hc
              exact hjg hg
            cases hw : j.sem_.wait with
            | none =>
              exact ⟨hlt, key b j (fun j2 _ hba => absurd hba hne)⟩
            | some sem =>
              exact ⟨hlt, key b _ (fun j2 _ hba => absurd hba hne)⟩
        · simp only [hval, Bool.not_false, if_true]
          exact ⟨hlt, i, hi, hv, hg⟩
  | make task isValid =>
    have hne : a ≠ w.nextImpl := Nat.ne_of_lt hlt
    refine ⟨?_, i, ?_, hv, hg⟩
    · cases task <;> simp [HeapOp.apply, Result.new, Task.setResult] <;> omega
    · cases task <;>
        simp [HeapOp.apply, Result.new, Task.setResult, Function.update_noteq hne, hi]

/-- The same over a sequence of calls, with the failure of `get()`. -/
theorem HeapOp.runAll_retrieved (r : Result) (a : Nat) (hr : r.impl_ = some a)
    (ops : List (HeapOp El)) :
    ∀ w : World El σ,
      (a < w.nextImpl ∧ ∃ i, w.impls a = some i ∧ i.isValid_ = true ∧ i.isGet_ = true) →
      r.get (HeapOp.runAll ops w)
        = Outcome.threw (CppException.runtime_error "Result already retrieved")
            (HeapOp.runAll ops w) := by
  induction ops with
  | nil =>
    intro w h
    obtain ⟨_, i, hi, hv, hg⟩ := h
    exact Result.get_of_isGet r w a i hr hi hv hg
  | cons op ops ih =>
    intro w h
    exact ih (HeapOp.apply w op) (HeapOp.apply_retrieved w op a h)

/-- C3: for every valid `Result` whose first `get()` returned a value, every
later `get()` on it throws `std::runtime_error("Result already retrieved")`:
it returns no value, does not block on the semaphore, and leaves the heap
(payload, semaphore count, flags) as it finds it.  This holds after any
sequence of further calls on the heap (`exec` of any task, `set` on any
state, `get()` on any `Result`, construction of further `Result`s), the
state of the `Result` having been allocated by `make_shared`; and
back-to-back `get()` calls leave the heap as the first `get()` left it. -/
theorem Result_get_second_fails (r : Result) (w w1 : World El σ) (v : Any El)
    (_hvalid : r.isValid w = true)
    (hfirst : r.get w = Outcome.returned v w1)
    (halloc : ∀ a, r.impl_ = some a → a < w.nextImpl)
    (ops : List (HeapOp El)) (n : Nat) :
    r.get (HeapOp.runAll ops w1)
        = Outcome.threw (CppException.runtime_error "Result already retrieved")
            (HeapOp.runAll ops w1) ∧
      r.get ((Result.afterGet r)^[n] w1)
        = Outcome.threw (CppException.runtime_error "Result already retrieved") w1 ∧
      (Result.afterGet r)^[n + 1] w1 = w1 := by
  obtain ⟨a, i, sem, hr, _, hv, _, _, _, hw1⟩ := Result.get_returned_inv r w w1 v hfirst
  have hi1 : w1.impls a = some { i with any_ := Any.empty, sem_ := sem, isGet_ := true } := by
    rw [hw1]; simp
  have hnext : a < w1.nextImpl := by
    rw [hw1]; exact halloc a hr
  have hget : r.get w1
      = Outcome.threw (CppException.runtime_error "Result already retrieved") w1 :=
    Result.get_of_isGet r w1 a _ hr hi1 hv rfl
  have hafter : Result.afterGet r w1 = w1 := by
    simp [Result.afterGet, hget]
  have hiter : ∀ k : Nat, (Result.afterGet r)^[k] w1 = w1 := by
    intro k
    induction k with
    | zero => rfl
    | succ k ih => rw [Function.iterate_succ_apply, hafter, ih]
  exact ⟨HeapOp.runAll_retrieved r a hr ops w1 ⟨hnext, _, hi1, hv, rfl⟩,
    by rw [hiter n]; exact hget, hiter (n + 1)⟩

/-- C4: an invalid `Result` (built with `isValid = false`, or
default-constructed) answers `false` to `isValid()` and its `get()` throws
`std::runtime_error("Invalid result")` at once, leaving the heap unchanged,
also after `set` was called on its completion state; a `Result` built with
`isValid = true` answers `true` to `isValid()`. -/
theorem Result_invalid_get_fails (w : World El σ) (task : Option Nat) :
    (Result.new task false w).1.isValid (Result.new task false w).2 = false ∧
    Result.default.isValid w = false ∧
    (∀ r : Result, r.isValid w = false →
      r.get w = Outcome.threw (CppException.runtime_error "Invalid result") w) ∧
    (∀ (r : Result) (a : Nat) (i : Impl El) (any : Any El),
      r.impl_ = some a → w.impls a = some i → r.isValid w = false →
      r.isValid { w with impls := Function.update w.impls a (some (i.set any)) } = false) ∧
    (Result.new task true w).1.isValid (Result.new task true w).2 = true := by
  refine ⟨?_, rfl, ?_, ?_, ?_⟩
  · cases task <;> simp [Result.new, Result.isValid, Task.setResult, Impl.new, Impl.isValid]
  · intro r hr
    unfold Result.isValid at hr
    unfold Result.get
    cases h1 : r.impl_ with
    | none => rfl
    | some a =>
      simp only [h1] at hr
      simp only
      cases h2 : w.impls a with
      | none => rfl
      | some i =>
        simp only [h2] at hr
        simp [hr]
  · intro r a i any hr hi hinv
    simp only [Result.isValid, hr, hi] at hinv
    simp [Result.isValid, hr, Impl.set, Impl.isValid] at hinv ⊢
    exact hinv
  · cases task <;> simp [Result.new, Result.isValid, Task.setResult, Impl.new, Impl.isValid]

/-- C6: when the completion state of a task no longer exists (its weak
pointer was never bound, or the `Impl` it names is gone, as after the
destruction of the `Result` bound to it), `exec()` returns leaving the whole
heap unchanged: no completion state is modified and the task's own members
are not advanced by `run()`. -/
theorem Task_exec_without_state (w : World El σ) (t : Nat) :
    ((w.tasks t).impl_ = none → Task.exec t w = w) ∧
    (∀ a : Nat, (w.tasks t).impl_ = some a → w.impls a = none → Task.exec t w = w) ∧
    ∀ isValid : Bool,
      Task.exec t (Result.destroy (Result.new (some t) isValid w).1 (Result.new (some t) isValid w).2)
        = Result.destroy (Result.new (some t) isValid w).1 (Result.new (some t) isValid w).2 := by
  refine ⟨?_, ?_, ?_⟩
  · intro h
    simp [Task.exec, h]
  · intro a h1 h2
    simp [Task.exec, h1, h2]
  · intro isValid
    simp [Task.exec, Result.destroy, Result.new, Task.setResult]

end ResultTheorems

/-- C3, evaluated: bind task 0 to a valid `Result`, execute it, `get()` once
(returns 5050); then `exec` again, a direct `set`, a new `Result` and a
failed `get()`; the next `get()` throws and leaves the heap as it was. -/
theorem Result_get_second_fails_witness :
    Result.isValid ⟨some 0⟩ World.published = true ∧
    Result.get ⟨some 0⟩ World.published
      = Outcome.returned (Any.ofValue CppTy.ull (5050 : Nat)) World.retrieved ∧
    (0 : Nat) < World.published.nextImpl ∧
    Result.get ⟨some 0⟩ (HeapOp.runAll HeapOp.demo World.retrieved)
      = Outcome.threw (CppException.runtime_error "Result already retrieved")
          (HeapOp.runAll HeapOp.demo World.retrieved) ∧
    ((HeapOp.runAll HeapOp.demo World.retrieved).impls 0).map (fun i => i.sem_.resourceCount_)
      = some 2 :=
  ⟨rfl, rfl, by decide,
   (Result_get_second_fails ⟨some 0⟩ World.published World.retrieved
      (Any.ofValue CppTy.ull (5050 : Nat)) rfl rfl
      (fun a h => by cases h; decide) HeapOp.demo 0).1,
   rfl⟩

/-- C4, evaluated: a default-constructed `Result` on `World.sample`, and a
`Result(task0, false)` whose completion state then receives a `set`. -/
theorem Result_invalid_get_fails_witness :
    Result.default.isValid World.sample = false ∧
    Result.default.get World.sample
      = Outcome.threw (CppException.runtime_error "Invalid result") World.sample ∧
    Result.isValid ⟨some 0⟩ (Task.exec 0 (Result.new (some 0) false World.sample).2) = false ∧
    Result.get ⟨some 0⟩ (Task.exec 0 (Result.new (some 0) false World.sample).2)
      = Outcome.threw (CppException.runtime_error "Invalid result")
          (Task.exec 0 (Result.new (some 0) false World.sample).2) :=
  ⟨rfl,
   (Result_invalid_get_fails World.sample (some 0)).2.2.1 Result.default rfl,
   rfl,
   (Result_invalid_get_fails (Task.exec 0 (Result.new (some 0) false World.sample).2)
      (some 0)).2.2.1 ⟨some 0⟩ rfl⟩

/-- C6, evaluated: task 0 of `World.sample` was never bound, and task 0 of
`World.bound` names a state that is gone once cell 0 is cleared. -/
theorem Task_exec_without_state_witness :
    (World.sample.tasks 0).impl_ = none ∧
    Task.exec 0 World.sample = World.sample ∧
    ((Result.destroy ⟨some 0⟩ World.bound).tasks 0).impl_ = some 0 ∧
    (Result.destroy ⟨some 0⟩ World.bound).impls 0 = none ∧
    Task.exec 0 (Result.destroy ⟨some 0⟩ World.bound) = Result.destroy ⟨some 0⟩ World.bound :=
  ⟨rfl, (Task_exec_without_state World.sample 0).1 rfl, rfl, rfl,
   (Task_exec_without_state (Result.destroy ⟨some 0⟩ World.bound) 0).2.1 0 rfl rfl⟩

/-! ## Theorems: `ThreadPool` -/

section PoolTheorems

variable {Ty : Type} {El : Ty → Type} {σ : Type}

theorem u32_le (n : Nat) : u32 n ≤ n := by
  unfold u32
  omega

theorem inc32_eq_mod (n : Nat) : inc32 n = (n + 1) % 4294967296 := by
  unfold inc32
  rfl

theorem inc32_le (n : Nat) : inc32 n ≤ n + 1 := by
  rw [inc32_eq_mod]
  omega

theorem dec32_eq_mod (n : Nat) : dec32 n = (n + 4294967295) % 4294967296 := by
  unfold dec32
  split_ifs <;> omega

theorem dec32_le (n : Nat) (h : 0 < n) : dec32 n ≤ n - 1 := by
  rw [dec32_eq_mod]
  omega

theorem Result.new_fst (task : Option Nat) (b : Bool) (w : World El σ) :
    (Result.new task b w).1 = ⟨some w.nextImpl⟩ := by
  cases task <;> rfl

theorem Result.new_self (task : Option Nat) (b : Bool) (w : World El σ) (t : Nat) :
    ((Result.new task b w).2.tasks t).self = (w.tasks t).self := by
  cases task with
  | none => rfl
  | some u =>
    by_cases h : t = u
    · subst h; simp [Result.new, Task.setResult]
    · simp [Result.new, Task.setResult, Function.update_noteq h]

theorem Result.new_impls (task : Option Nat) (b : Bool) (w : World El σ) (a : Nat)
    (h : a ≠ w.nextImpl) : (Result.new task b w).2.impls a = w.impls a := by
  cases task <;> simp [Result.new, Task.setResult, Function.update_noteq h]

theorem Result.new_isValid (task : Option Nat) (b : Bool) (w : World El σ) :
    (Result.new task b w).1.isValid (Result.new task b w).2 = b := by
  cases task <;> simp [Result.new, Result.isValid, Task.setResult, Impl.new, Impl.isValid]

/-- A rejected submission only constructs `Result(task, false)`. -/
theorem ThreadPool.submitTask_full (task : Option Nat) (s : Sys El σ)
    (h : s.pool.taskQueMaxThreshold_ ≤ s.pool.taskQue_.length) :
    ThreadPool.submitTask task s
      = ((Result.new task false s.heap).1, { s with heap := (Result.new task false s.heap).2 }) := by
  have h1 : ¬ s.pool.taskQue_.length < s.pool.taskQueMaxThreshold_ := Nat.not_lt.mpr h
  simp [ThreadPool.submitTask, h1]

/-- The queue after `submitTask`. -/
theorem ThreadPool.submitTask_taskQue (task : Option Nat) (s : Sys El σ) :
    (ThreadPool.submitTask task s).2.pool.taskQue_
      = if s.pool.taskQue_.length < s.pool.taskQueMaxThreshold_ then s.pool.taskQue_ ++ [task]
        else s.pool.taskQue_ := by
  simp only [ThreadPool.submitTask]
  split_ifs <;> simp [ThreadPool.spawnOne]

/-- The pending count after `submitTask`. -/
theorem ThreadPool.submitTask_taskSize (task : Option Nat) (s : Sys El σ) :
    (ThreadPool.submitTask task s).2.pool.taskSize_
      = if s.pool.taskQue_.length < s.pool.taskQueMaxThreshold_ then inc32 s.pool.taskSize_
        else s.pool.taskSize_ := by
  simp only [ThreadPool.submitTask]
  split_ifs <;> simp [ThreadPool.spawnOne]

/-- Configuration fields are not written by `submitTask`. -/
theorem ThreadPool.submitTask_config (task : Option Nat) (s : Sys El σ) :
    (ThreadPool.submitTask task s).2.pool.taskQueMaxThreshold_ = s.pool.taskQueMaxThreshold_ ∧
    (ThreadPool.submitTask task s).2.pool.threadSizeThreshold_ = s.pool.threadSizeThreshold_ ∧
    (ThreadPool.submitTask task s).2.pool.poolMode_ = s.pool.poolMode_ ∧
    (ThreadPool.submitTask task s).2.pool.isPoolRunning_ = s.pool.isPoolRunning_ ∧
    (ThreadPool.submitTask task s).2.pool.initThreadSize_ = s.pool.initThreadSize_ := by
  simp only [ThreadPool.submitTask]
  split_ifs <;> simp [ThreadPool.spawnOne]

/-- In `MODE_FIXED`, `submitTask` starts no thread. -/
theorem ThreadPool.submitTask_fixed_launched (task : Option Nat) (s : Sys El σ)
    (h : s.pool.poolMode_ = PoolMode.MODE_FIXED) :
    (ThreadPool.submitTask task s).2.launched = s.launched := by
  simp only [ThreadPool.submitTask]
  split_ifs <;> simp_all [ThreadPool.spawnOne]

/-- Both branches of `submitTask` end with the construction of the `Result`,
valid exactly when the queue was below its maximum. -/
theorem ThreadPool.submitTask_heap (task : Option Nat) (s : Sys El σ) :
    (ThreadPool.submitTask task s).1
      = (Result.new task (decide (s.pool.taskQue_.length < s.pool.taskQueMaxThreshold_))
          s.heap).1 ∧
    (ThreadPool.submitTask task s).2.heap
      = (Result.new task (decide (s.pool.taskQue_.length < s.pool.taskQueMaxThreshold_))
          s.heap).2 := by
  simp only [ThreadPool.submitTask]
  split_ifs with h1 h2
  · simp [h1, ThreadPool.spawnOne]
  · simp [h1]
  · simp [h1]

/-- The `Result` that `submitTask` returns is valid exactly when the task was
accepted. -/
theorem ThreadPool.submitTask_isValid (task : Option Nat) (s : Sys El σ) :
    (ThreadPool.submitTask task s).1.isValid (ThreadPool.submitTask task s).2.heap
      = decide (s.pool.taskQue_.length < s.pool.taskQueMaxThreshold_) := by
  rw [(ThreadPool.submitTask_heap task s).1, (ThreadPool.submitTask_heap task s).2]
  exact Result.new_isValid task _ s.heap

theorem Result.new_runLog (task : Option Nat) (b : Bool) (w : World El σ) :
    (Result.new task b w).2.runLog = w.runLog := by
  cases task <;> rfl

/-- The call `task->exec()` invokes `run()` at most once, on that task. -/
theorem Task.exec_runLog (t : Nat) (w : World El σ) :
    (Task.exec t w).runLog = w.runLog ∨ (Task.exec t w).runLog = w.runLog ++ [t] := by
  unfold Task.exec
  cases h1 : (w.tasks t).impl_ with
  | none => exact Or.inl rfl
  | some a =>
    cases h2 : w.impls a with
    | none => left; simp [h2]
    | some i => right; simp [h2]

/-- When `impl_.lock()` succeeds, `exec` invokes `run()`. -/
theorem Task.exec_locks_runLog (t : Nat) (w : World El σ) (h : Task.locks t w = true) :
    (Task.exec t w).runLog = w.runLog ++ [t] := by
  unfold Task.locks at h
  unfold Task.exec
  cases h1 : (w.tasks t).impl_ with
  | none => simp [h1] at h
  | some a =>
    cases h2 : w.impls a with
    | none => simp [h1, h2] at h
    | some i => simp [h2]

/-- A task bound to a completion state stays so through `exec` of any task. -/
theorem Task.exec_locks (t u : Nat) (w : World El σ) (h : Task.locks u w = true) :
    Task.locks u (Task.exec t w) = true := by
  unfold Task.exec
  cases h1 : (w.tasks t).impl_ with
  | none => exact h
  | some a =>
    cases h2 : w.impls a with
    | none => simpa [h2] using h
    | some i =>
      unfold Task.locks at h ⊢
      cases h3 : (w.tasks u).impl_ with
      | none => simp [h3] at h
      | some b =>
        simp only [h3] at h
        by_cases hut : u = t
        · subst hut
          by_cases hba : b = a
          · subst hba; simp [h2, h3]
          · simp [h2, h3, Function.update_noteq hba, h]
        · by_cases hba : b = a
          · subst hba; simp [h2, h3, Function.update_noteq hut]
          · simp [h2, h3, Function.update_noteq hut, Function.update_noteq hba, h]

/-- A task bound to a completion state stays so through the construction of
a `Result`. -/
theorem Result.new_locks (task : Option Nat) (b : Bool) (u : Nat) (w : World El σ)
    (h : Task.locks u w = true) : Task.locks u (Result.new task b w).2 = true := by
  unfold Task.locks at h ⊢
  cases h3 : (w.tasks u).impl_ with
  | none => simp [h3] at h
  | some c =>
    simp only [h3] at h
    cases task with
    | none =>
      by_cases hc : c = w.nextImpl
      · simp [Result.new, h3, hc]
      · simp [Result.new, h3, Function.update_noteq hc, h]
    | some t =>
      by_cases hut : u = t
      · subst hut; simp [Result.new, Task.setResult]
      · by_cases hc : c = w.nextImpl
        · simp [Result.new, Task.setResult, Function.update_noteq hut, h3, hc]
        · simp [Result.new, Task.setResult, Function.update_noteq hut, h3,
            Function.update_noteq hc, h]

/-- The construction of a `Result` for a task binds the task to the new
completion state. -/
theorem Result.new_locks_self (t : Nat) (b : Bool) (w : World El σ) :
    Task.locks t (Result.new (some t) b w).2 = true := by
  simp [Task.locks, Result.new, Task.setResult]

theorem Machine.mem_held (ws : List Worker) (x : Option Nat) :
    x ∈ Machine.held ws ↔ ∃ wk ∈ ws, wk.pc = WorkerPc.running x := by
  unfold Machine.held
  rw [List.mem_filterMap]
  constructor
  · rintro ⟨wk, hwk, h⟩
    refine ⟨wk, hwk, ?_⟩
    cases hpc : wk.pc <;> simp_all
  · rintro ⟨wk, hwk, h⟩
    exact ⟨wk, hwk, by simp [h]⟩

theorem Machine.held_newWorkers (n : Nat) (l : List Nat) :
    Machine.held (Machine.newWorkers n l) = [] := by
  unfold Machine.newWorkers Machine.held
  induction l.drop n with
  | nil => rfl
  | cons a t ih => simp [List.filterMap_cons]

theorem Machine.held_append (ws vs : List Worker) :
    Machine.held (ws ++ vs) = Machine.held ws ++ Machine.held vs := by
  simp [Machine.held, List.filterMap_append]

theorem Machine.mem_held_set (ws : List Worker) (k : Nat) (wk : Worker) (x : Option Nat)
    (h : x ∈ Machine.held (ws.set k wk)) :
    x ∈ Machine.held ws ∨ wk.pc = WorkerPc.running x := by
  rw [Machine.mem_held] at h
  obtain ⟨v, hv, hpc⟩ := h
  rcases List.mem_or_eq_of_mem_set hv with h1 | h1
  · exact Or.inl ((Machine.mem_held ws x).mpr ⟨v, h1, hpc⟩)
  · exact Or.inr (h1 ▸ hpc)

/-- The queue after the locked part of `threadFunc` holds only tasks that
were queued before, and a task taken was queued before. -/
theorem ThreadPool.threadFunc_check_mem (threadId : Nat) (p : ThreadPool) (x : Option Nat) :
    (x ∈ (ThreadPool.threadFunc_check threadId p).2.taskQue_ → x ∈ p.taskQue_) ∧
    ((ThreadPool.threadFunc_check threadId p).1 = WorkerPc.running x → x ∈ p.taskQue_) := by
  unfold ThreadPool.threadFunc_check
  cases hq : p.taskQue_ with
  | nil =>
    simp only
    split_ifs <;> simp [hq]
  | cons task rest =>
    simp only [WorkerPc.running.injEq, List.mem_cons]
    exact ⟨fun h => Or.inr h, fun h => Or.inl h.symm⟩

theorem ThreadPool.threadFunc_timedWake_taskQue (threadId : Nat) (b : Bool) (d : Int)
    (p : ThreadPool) :
    (ThreadPool.threadFunc_timedWake threadId b d p).2.taskQue_ = p.taskQue_ ∧
    ∀ x, (ThreadPool.threadFunc_timedWake threadId b d p).1 ≠ WorkerPc.running x := by
  unfold ThreadPool.threadFunc_timedWake
  split_ifs <;> simp

theorem Machine.step_work_none (m : Machine El σ) (k : Nat) (b : Bool) (d : Int)
    (h : m.workers[k]? = none) : m.step (Event.work k b d) = m := by
  simp [Machine.step, h]

theorem Machine.step_work_some (m : Machine El σ) (k : Nat) (b : Bool) (d : Int) (wk : Worker)
    (h : m.workers[k]? = some wk) :
    m.step (Event.work k b d) =
      { m with
        sys := (ThreadPool.threadFunc b d wk m.sys).2
        workers := m.workers.set k (ThreadPool.threadFunc b d wk m.sys).1
        dequeued :=
          match wk.pc, (ThreadPool.threadFunc b d wk m.sys).1.pc with
          | .acquire, .running task => m.dequeued ++ [task]
          | _, _ => m.dequeued } := by
  simp [Machine.step, h]

/-- One event that is not a submission of `task` keeps `task` out of the
queue and out of the workers' hands, and `run()` is invoked on nothing but
tasks that were in a worker's hands. -/
theorem Machine.step_avoids (m : Machine El σ) (e : Event) (task : Option Nat)
    (he : e.avoids task) (hq : task ∉ m.sys.pool.taskQue_)
    (hh : task ∉ Machine.held m.workers) :
    task ∉ (m.step e).sys.pool.taskQue_ ∧ task ∉ Machine.held (m.step e).workers ∧
      ∃ more, (m.step e).sys.heap.runLog = m.sys.heap.runLog ++ more ∧
        ∀ t, task = some t → t ∉ more := by
  cases e with
  | submit t =>
    have ht : t ≠ task := he
    refine ⟨?_, ?_, [], ?_, by simp⟩
    · simp only [Machine.step, ThreadPool.submitTask_taskQue]
      split_ifs
      · simp [hq, Ne.symm ht]
      · exact hq
    · simp only [Machine.step, Machine.held_append, Machine.held_newWorkers, List.append_nil]
      exact hh
    · show (ThreadPool.submitTask t m.sys).2.heap.runLog = m.sys.heap.runLog ++ []
      rw [(ThreadPool.submitTask_heap t m.sys).2, Result.new_runLog, List.append_nil]
  | work k b d =>
    cases hk : m.workers[k]? with
    | none =>
      rw [Machine.step_work_none m k b d hk]
      exact ⟨hq, hh, [], by simp, by simp⟩
    | some wk =>
      have hmem : wk ∈ m.workers := List.getElem?_mem hk
      rw [Machine.step_work_some m k b d wk hk]
      cases hpc : wk.pc with
      | acquire =>
        have hc := ThreadPool.threadFunc_check_mem wk.threadId m.sys.pool task
        refine ⟨?_, ?_, [], by simp [ThreadPool.threadFunc, hpc], by simp⟩
        · simp only [ThreadPool.threadFunc, hpc]
          exact fun h => hq (hc.1 h)
        · simp only [ThreadPool.threadFunc, hpc]
          intro h
          rcases Machine.mem_held_set _ _ _ _ h with h1 | h1
          · exact hh h1
          · exact hq (hc.2 h1)
      | waitTimed =>
        have hc := ThreadPool.threadFunc_timedWake_taskQue wk.threadId b d m.sys.pool
        refine ⟨?_, ?_, [], by simp [ThreadPool.threadFunc, hpc], by simp⟩
        · simp only [ThreadPool.threadFunc, hpc, hc.1]
          exact hq
        · simp only [ThreadPool.threadFunc, hpc]
          intro h
          rcases Machine.mem_held_set _ _ _ _ h with h1 | h1
          · exact hh h1
          · exact hc.2 task h1
      | waitForever =>
        refine ⟨?_, ?_, [], by simp [ThreadPool.threadFunc, hpc], by simp⟩
        · simp only [ThreadPool.threadFunc, hpc]
          exact hq
        · simp only [ThreadPool.threadFunc, hpc]
          intro h
          rcases Machine.mem_held_set _ _ _ _ h with h1 | h1
          · exact hh h1
          · simp at h1
      | running t =>
        have ht : t ≠ task := by
          intro h
          exact hh ((Machine.mem_held _ _).mpr ⟨wk, hmem, by rw [hpc, h]⟩)
        refine ⟨?_, ?_, ?_⟩
        · simp only [ThreadPool.threadFunc, hpc, ThreadPool.threadFunc_run]
          exact hq
        · simp only [ThreadPool.threadFunc, hpc]
          intro h
          rcases Machine.mem_held_set _ _ _ _ h with h1 | h1
          · exact hh h1
          · simp at h1
        · simp only [ThreadPool.threadFunc, hpc, ThreadPool.threadFunc_run]
          cases t with
          | none => exact ⟨[], by simp, by simp⟩
          | some u =>
            rcases Task.exec_runLog u m.sys.heap with h1 | h1
            · exact ⟨[], by simp [h1], by simp⟩
            · refine ⟨[u], by simp [h1], ?_⟩
              intro t1 ht1
              have : u ≠ t1 := fun hu => ht (by rw [ht1, hu])
              simp [Ne.symm this]
      | exited =>
        refine ⟨?_, ?_, [], by simp [ThreadPool.threadFunc, hpc], by simp⟩
        · simp only [ThreadPool.threadFunc, hpc]
          exact hq
        · simp only [ThreadPool.threadFunc, hpc]
          intro h
          rcases Machine.mem_held_set _ _ _ _ h with h1 | h1
          · exact hh h1
          · rw [hpc] at h1; simp at h1

/-- On a task that is neither queued nor in a worker's hands, `run()` is not
invoked in any run of events that does not submit it. -/
theorem Machine.run_avoids (evs : List Event) (task : Option Nat) :
    ∀ m : Machine El σ, (∀ e ∈ evs, e.avoids task) → task ∉ m.sys.pool.taskQue_ →
      task ∉ Machine.held m.workers →
      ∃ more, (Machine.run evs m).sys.heap.runLog = m.sys.heap.runLog ++ more ∧
        ∀ t, task = some t → t ∉ more := by
  induction evs with
  | nil => intro m _ _ _; exact ⟨[], by simp [Machine.run], by simp⟩
  | cons e es ih =>
    intro m hev hq hh
    obtain ⟨h1, h2, more1, h3, h4⟩ :=
      Machine.step_avoids m e task (hev e (List.mem_cons_self e es)) hq hh
    obtain ⟨more2, h5, h6⟩ :=
      ih (m.step e) (fun x hx => hev x (List.mem_cons_of_mem e hx)) h1 h2
    refine ⟨more1 ++ more2, ?_, ?_⟩
    · simp only [Machine.run]
      rw [h5, h3, List.append_assoc]
    · intro t ht
      simp [h4 t ht, h6 t ht]

/-- C7 (amended): if the queue length is still not below the maximum when the
submission timeout ends, `submitTask` returns a `Result` whose `isValid()`
is false and leaves the pool (queue, pending count, idle count, current
worker count, worker set) unchanged; no thread is created or started, the
submission invokes no `run()` and touches no existing completion state; and
on a task that is not already queued or in a worker's hands (from an earlier
accepted submission) the pool does not invoke `run()` in any later run of
events that does not submit it again. -/
theorem submitTask_rejected (m : Machine El σ) (task : Option Nat)
    (hfull : m.sys.pool.taskQueMaxThreshold_ ≤ m.sys.pool.taskQue_.length) :
    (ThreadPool.submitTask task m.sys).1.isValid (ThreadPool.submitTask task m.sys).2.heap = false ∧
    (ThreadPool.submitTask task m.sys).2.pool = m.sys.pool ∧
    (ThreadPool.submitTask task m.sys).2.generateId_ = m.sys.generateId_ ∧
    (ThreadPool.submitTask task m.sys).2.launched = m.sys.launched ∧
    (∀ t, (((ThreadPool.submitTask task m.sys).2.heap.tasks t).self = (m.sys.heap.tasks t).self)) ∧
    (ThreadPool.submitTask task m.sys).2.heap.runLog = m.sys.heap.runLog ∧
    (∀ a, a ≠ m.sys.heap.nextImpl →
      (ThreadPool.submitTask task m.sys).2.heap.impls a = m.sys.heap.impls a) ∧
    (m.step (Event.submit task)).workers = m.workers ∧
    (m.step (Event.submit task)).accepted = m.accepted ∧
    (task ∉ m.sys.pool.taskQue_ → task ∉ Machine.held m.workers →
      ∀ evs : List Event, (∀ e ∈ evs, e.avoids task) →
        ∃ more,
          (Machine.run evs (m.step (Event.submit task))).sys.heap.runLog
            = m.sys.heap.runLog ++ more ∧
          ∀ t, task = some t → t ∉ more) := by
  have hsub := ThreadPool.submitTask_full task m.sys hfull
  have hlt : ¬ m.sys.pool.taskQue_.length < m.sys.pool.taskQueMaxThreshold_ := Nat.not_lt.mpr hfull
  have hval : (ThreadPool.submitTask task m.sys).1.isValid (ThreadPool.submitTask task m.sys).2.heap
      = false := by
    rw [ThreadPool.submitTask_isValid]; simp [hlt]
  have hlog : (ThreadPool.submitTask task m.sys).2.heap.runLog = m.sys.heap.runLog := by
    rw [(ThreadPool.submitTask_heap task m.sys).2, Result.new_runLog]
  refine ⟨hval, ?_, ?_, ?_, ?_, hlog, ?_, ?_, ?_, ?_⟩
  · rw [hsub]
  · rw [hsub]
  · rw [hsub]
  · intro t; rw [hsub]; exact Result.new_self task false m.sys.heap t
  · intro a ha; rw [hsub]; exact Result.new_impls task false m.sys.heap a ha
  · simp [Machine.step, hsub, Machine.newWorkers]
  · simp [Machine.step, hval]
  · intro hq hh evs hev
    have hstep : (m.step (Event.submit task)).sys.pool = m.sys.pool := by
      simp [Machine.step, hsub]
    have hw : (m.step (Event.submit task)).workers = m.workers := by
      simp [Machine.step, hsub, Machine.newWorkers]
    have hex : (m.step (Event.submit task)).sys.heap.runLog = m.sys.heap.runLog := hlog
    have := Machine.run_avoids evs task (m.step (Event.submit task)) hev
      (by rw [hstep]; exact hq) (by rw [hw]; exact hh)
    rw [hex] at this
    exact this

/-- The locked part of `threadFunc` on a non-empty queue. -/
theorem ThreadPool.threadFunc_check_cons (threadId : Nat) (p : ThreadPool) (task : Option Nat)
    (rest : List (Option Nat)) (h : p.taskQue_ = task :: rest) :
    ThreadPool.threadFunc_check threadId p
      = (WorkerPc.running task,
          { p with
            idleThreadSize_ := dec32 p.idleThreadSize_
            taskQue_ := rest
            taskSize_ := dec32 p.taskSize_ }) := by
  simp [ThreadPool.threadFunc_check, h]

/-- The locked part of `threadFunc` on an empty queue. -/
theorem ThreadPool.threadFunc_check_nil (threadId : Nat) (p : ThreadPool) (h : p.taskQue_ = []) :
    (ThreadPool.threadFunc_check threadId p).2.taskQue_ = [] ∧
    (ThreadPool.threadFunc_check threadId p).2.taskSize_ = p.taskSize_ ∧
    (ThreadPool.threadFunc_check threadId p).2.curThreadSize_ = p.curThreadSize_ ∧
    ∀ x, (ThreadPool.threadFunc_check threadId p).1 ≠ WorkerPc.running x := by
  simp only [ThreadPool.threadFunc_check, h]
  split_ifs <;> simp [h]

/-- Effect of a submission on the machine. -/
theorem Machine.step_submit (m : Machine El σ) (task : Option Nat) :
    (m.step (Event.submit task)).dequeued = m.dequeued ∧
    (m.step (Event.submit task)).sys.heap
      = (Result.new task (decide (m.sys.pool.taskQue_.length < m.sys.pool.taskQueMaxThreshold_))
          m.sys.heap).2 ∧
    (m.step (Event.submit task)).sys.pool.poolMode_ = m.sys.pool.poolMode_ ∧
    ((m.sys.pool.taskQue_.length < m.sys.pool.taskQueMaxThreshold_ ∧
        (m.step (Event.submit task)).sys.pool.taskQue_ = m.sys.pool.taskQue_ ++ [task] ∧
        (m.step (Event.submit task)).sys.pool.taskSize_ = inc32 m.sys.pool.taskSize_ ∧
        (m.step (Event.submit task)).accepted = m.accepted ++ [task]) ∨
      (¬ m.sys.pool.taskQue_.length < m.sys.pool.taskQueMaxThreshold_ ∧
        (m.step (Event.submit task)).sys.pool.taskQue_ = m.sys.pool.taskQue_ ∧
        (m.step (Event.submit task)).sys.pool.taskSize_ = m.sys.pool.taskSize_ ∧
        (m.step (Event.submit task)).accepted = m.accepted)) := by
  refine ⟨rfl, (ThreadPool.submitTask_heap task m.sys).2, ?_, ?_⟩
  · exact (ThreadPool.submitTask_config task m.sys).2.2.1
  · by_cases h : m.sys.pool.taskQue_.length < m.sys.pool.taskQueMaxThreshold_
    · left
      simp [Machine.step, ThreadPool.submitTask_taskQue, ThreadPool.submitTask_taskSize,
        ThreadPool.submitTask_isValid, h]
    · right
      simp [Machine.step, ThreadPool.submitTask_taskQue, ThreadPool.submitTask_taskSize,
        ThreadPool.submitTask_isValid, h]

/-- The locked part of `threadFunc` writes no configuration field. -/
theorem ThreadPool.threadFunc_check_config (threadId : Nat) (p : ThreadPool) :
    (ThreadPool.threadFunc_check threadId p).2.poolMode_ = p.poolMode_ ∧
    (ThreadPool.threadFunc_check threadId p).2.threadSizeThreshold_ = p.threadSizeThreshold_ ∧
    (ThreadPool.threadFunc_check threadId p).2.curThreadSize_ = p.curThreadSize_ ∧
    (ThreadPool.threadFunc_check threadId p).2.taskQueMaxThreshold_ = p.taskQueMaxThreshold_ := by
  cases hq : p.taskQue_ with
  | nil =>
    simp only [ThreadPool.threadFunc_check, hq]
    split_ifs <;> simp
  | cons task rest =>
    rw [ThreadPool.threadFunc_check_cons threadId p task rest hq]
    exact ⟨rfl, rfl, rfl, rfl⟩

/-- The return from the timed wait writes no configuration field but the
current worker count, which it may only decrement when it is positive. -/
theorem ThreadPool.threadFunc_timedWake_config (threadId : Nat) (b : Bool) (d : Int)
    (p : ThreadPool) :
    (ThreadPool.threadFunc_timedWake threadId b d p).2.poolMode_ = p.poolMode_ ∧
    (ThreadPool.threadFunc_timedWake threadId b d p).2.threadSizeThreshold_
      = p.threadSizeThreshold_ ∧
    (ThreadPool.threadFunc_timedWake threadId b d p).2.taskSize_ = p.taskSize_ ∧
    (ThreadPool.threadFunc_timedWake threadId b d p).2.curThreadSize_ ≤ p.curThreadSize_ := by
  unfold ThreadPool.threadFunc_timedWake
  split_ifs with h
  · refine ⟨rfl, rfl, rfl, ?_⟩
    have h1 : p.initThreadSize_ < p.curThreadSize_ := h.2.2
    have h2 := dec32_le p.curThreadSize_ (Nat.lt_of_le_of_lt (Nat.zero_le _) h1)
    show dec32 p.curThreadSize_ ≤ p.curThreadSize_
    omega
  · exact ⟨rfl, rfl, rfl, Nat.le_refl _⟩

/-- A worker step from the top of the loop with a non-empty queue. -/
theorem Machine.step_work_take (m : Machine El σ) (k : Nat) (b : Bool) (d : Int) (wk : Worker)
    (task : Option Nat) (rest : List (Option Nat))
    (hk : m.workers[k]? = some wk) (hpc : wk.pc = WorkerPc.acquire)
    (hq : m.sys.pool.taskQue_ = task :: rest) :
    m.step (Event.work k b d) =
      { m with
        sys := { m.sys with pool := (ThreadPool.threadFunc_check wk.threadId m.sys.pool).2 }
        workers := m.workers.set k { wk with pc := WorkerPc.running task }
        dequeued := m.dequeued ++ [task] } := by
  rw [Machine.step_work_some m k b d wk hk]
  have h1 : ThreadPool.threadFunc b d wk m.sys
      = ({ wk with pc := WorkerPc.running task },
          { m.sys with pool := (ThreadPool.threadFunc_check wk.threadId m.sys.pool).2 }) := by
    unfold ThreadPool.threadFunc
    rw [hpc]
    simp only [ThreadPool.threadFunc_check_cons wk.threadId m.sys.pool task rest hq]
  rw [h1, hpc]

/-- A worker step from the top of the loop with an empty queue. -/
theorem Machine.step_work_idle (m : Machine El σ) (k : Nat) (b : Bool) (d : Int) (wk : Worker)
    (hk : m.workers[k]? = some wk) (hpc : wk.pc = WorkerPc.acquire)
    (hq : m.sys.pool.taskQue_ = []) :
    m.step (Event.work k b d) =
      { m with
        sys := { m.sys with pool := (ThreadPool.threadFunc_check wk.threadId m.sys.pool).2 }
        workers := m.workers.set k
          { wk with pc := (ThreadPool.threadFunc_check wk.threadId m.sys.pool).1 } } := by
  rw [Machine.step_work_some m k b d wk hk]
  have h1 : ThreadPool.threadFunc b d wk m.sys
      = ({ wk with pc := (ThreadPool.threadFunc_check wk.threadId m.sys.pool).1 },
          { m.sys with pool := (ThreadPool.threadFunc_check wk.threadId m.sys.pool).2 }) := by
    unfold ThreadPool.threadFunc
    rw [hpc]
  have h2 := (ThreadPool.threadFunc_check_nil wk.threadId m.sys.pool hq).2.2.2
  rw [h1, hpc]
  cases hx : (ThreadPool.threadFunc_check wk.threadId m.sys.pool).1 with
  | running x => exact absurd hx (h2 x)
  | acquire => rfl
  | waitTimed => rfl
  | waitForever => rfl
  | exited => rfl

/-- A worker step on return from the timed wait. -/
theorem Machine.step_work_wake (m : Machine El σ) (k : Nat) (b : Bool) (d : Int) (wk : Worker)
    (hk : m.workers[k]? = some wk) (hpc : wk.pc = WorkerPc.waitTimed) :
    m.step (Event.work k b d) =
      { m with
        sys := { m.sys with
          pool := (ThreadPool.threadFunc_timedWake wk.threadId b d m.sys.pool).2 }
        workers := m.workers.set k
          { wk with pc := (ThreadPool.threadFunc_timedWake wk.threadId b d m.sys.pool).1 } } := by
  rw [Machine.step_work_some m k b d wk hk]
  have h1 : ThreadPool.threadFunc b d wk m.sys
      = ({ wk with pc := (ThreadPool.threadFunc_timedWake wk.threadId b d m.sys.pool).1 },
          { m.sys with
            pool := (ThreadPool.threadFunc_timedWake wk.threadId b d m.sys.pool).2 }) := by
    unfold ThreadPool.threadFunc
    rw [hpc]
  rw [h1, hpc]

/-- A worker step on return from the plain wait. -/
theorem Machine.step_work_woken (m : Machine El σ) (k : Nat) (b : Bool) (d : Int) (wk : Worker)
    (hk : m.workers[k]? = some wk) (hpc : wk.pc = WorkerPc.waitForever) :
    m.step (Event.work k b d) =
      { m with workers := m.workers.set k { wk with pc := WorkerPc.acquire } } := by
  rw [Machine.step_work_some m k b d wk hk]
  have h1 : ThreadPool.threadFunc b d wk m.sys = ({ wk with pc := WorkerPc.acquire }, m.sys) := by
    unfold ThreadPool.threadFunc
    rw [hpc]
  rw [h1, hpc]

/-- A worker step that carries the task in hand through `exec`. -/
theorem Machine.step_work_exec (m : Machine El σ) (k : Nat) (b : Bool) (d : Int) (wk : Worker)
    (t : Option Nat) (hk : m.workers[k]? = some wk) (hpc : wk.pc = WorkerPc.running t) :
    m.step (Event.work k b d) =
      { m with
        sys := ThreadPool.threadFunc_run t m.sys
        workers := m.workers.set k { wk with pc := WorkerPc.acquire } } := by
  rw [Machine.step_work_some m k b d wk hk]
  have h1 : ThreadPool.threadFunc b d wk m.sys
      = ({ wk with pc := WorkerPc.acquire }, ThreadPool.threadFunc_run t m.sys) := by
    unfold ThreadPool.threadFunc
    rw [hpc]
  rw [h1, hpc]

/-- A step of a worker that has left `threadFunc`. -/
theorem Machine.step_work_exited (m : Machine El σ) (k : Nat) (b : Bool) (d : Int) (wk : Worker)
    (hk : m.workers[k]? = some wk) (hpc : wk.pc = WorkerPc.exited) :
    m.step (Event.work k b d) = { m with workers := m.workers.set k wk } := by
  rw [Machine.step_work_some m k b d wk hk]
  have h1 : ThreadPool.threadFunc b d wk m.sys = (wk, m.sys) := by
    unfold ThreadPool.threadFunc
    rw [hpc]
  rw [h1, hpc]

/-- Effect of a worker step on the machine: the worker takes the head of the
queue, or finishes the task in its hands, or neither. -/
theorem Machine.step_work (m : Machine El σ) (k : Nat) (b : Bool) (d : Int) (wk : Worker)
    (hk : m.workers[k]? = some wk) :
    (m.step (Event.work k b d)).accepted = m.accepted ∧
    (m.step (Event.work k b d)).sys.pool.poolMode_ = m.sys.pool.poolMode_ ∧
    ((∃ task rest, wk.pc = WorkerPc.acquire ∧ m.sys.pool.taskQue_ = task :: rest ∧
        (m.step (Event.work k b d)).sys.pool.taskQue_ = rest ∧
        (m.step (Event.work k b d)).sys.pool.taskSize_ = dec32 m.sys.pool.taskSize_ ∧
        (m.step (Event.work k b d)).dequeued = m.dequeued ++ [task] ∧
        (m.step (Event.work k b d)).sys.heap = m.sys.heap ∧
        (m.step (Event.work k b d)).workers
          = m.workers.set k { wk with pc := WorkerPc.running task }) ∨
      (∃ t, wk.pc = WorkerPc.running t ∧
        (m.step (Event.work k b d)).sys.pool.taskQue_ = m.sys.pool.taskQue_ ∧
        (m.step (Event.work k b d)).sys.pool.taskSize_ = m.sys.pool.taskSize_ ∧
        (m.step (Event.work k b d)).dequeued = m.dequeued ∧
        (m.step (Event.work k b d)).sys.heap = (ThreadPool.threadFunc_run t m.sys).heap ∧
        (m.step (Event.work k b d)).workers = m.workers.set k { wk with pc := WorkerPc.acquire }) ∨
      (∃ pc1, (∀ x, wk.pc ≠ WorkerPc.running x) ∧ (∀ x, pc1 ≠ WorkerPc.running x) ∧
        (m.step (Event.work k b d)).sys.pool.taskQue_ = m.sys.pool.taskQue_ ∧
        (m.step (Event.work k b d)).sys.pool.taskSize_ = m.sys.pool.taskSize_ ∧
        (m.step (Event.work k b d)).dequeued = m.dequeued ∧
        (m.step (Event.work k b d)).sys.heap = m.sys.heap ∧
        (m.step (Event.work k b d)).workers = m.workers.set k { wk with pc := pc1 })) := by
  cases hpc : wk.pc with
  | acquire =>
    have hcfg := ThreadPool.threadFunc_check_config wk.threadId m.sys.pool
    cases hq : m.sys.pool.taskQue_ with
    | nil =>
      have hc := ThreadPool.threadFunc_check_nil wk.threadId m.sys.pool hq
      rw [Machine.step_work_idle m k b d wk hk hpc hq]
      exact ⟨rfl, hcfg.1, Or.inr (Or.inr ⟨(ThreadPool.threadFunc_check wk.threadId m.sys.pool).1,
        fun x hx => WorkerPc.noConfusion hx, hc.2.2.2, hc.1, hc.2.1, rfl, rfl, rfl⟩)⟩
    | cons task rest =>
      have hc := ThreadPool.threadFunc_check_cons wk.threadId m.sys.pool task rest hq
      rw [Machine.step_work_take m k b d wk task rest hk hpc hq]
      exact ⟨rfl, hcfg.1, Or.inl ⟨task, rest, rfl, rfl, by rw [hc], by rw [hc], rfl, rfl, rfl⟩⟩
  | waitTimed =>
    have hc := ThreadPool.threadFunc_timedWake_taskQue wk.threadId b d m.sys.pool
    have hcfg := ThreadPool.threadFunc_timedWake_config wk.threadId b d m.sys.pool
    rw [Machine.step_work_wake m k b d wk hk hpc]
    exact ⟨rfl, hcfg.1, Or.inr (Or.inr
      ⟨(ThreadPool.threadFunc_timedWake wk.threadId b d m.sys.pool).1,
        fun x hx => WorkerPc.noConfusion hx, hc.2, hc.1, hcfg.2.2.1, rfl, rfl, rfl⟩)⟩
  | waitForever =>
    rw [Machine.step_work_woken m k b d wk hk hpc]
    exact ⟨rfl, rfl, Or.inr (Or.inr ⟨WorkerPc.acquire, fun x hx => WorkerPc.noConfusion hx,
      fun x hx => WorkerPc.noConfusion hx, rfl, rfl, rfl, rfl, rfl⟩)⟩
  | running t =>
    rw [Machine.step_work_exec m k b d wk t hk hpc]
    exact ⟨rfl, rfl, Or.inr (Or.inl ⟨t, rfl, rfl, rfl, rfl, rfl, rfl⟩)⟩
  | exited =>
    rw [Machine.step_work_exited m k b d wk hk hpc]
    refine ⟨rfl, rfl, Or.inr (Or.inr ⟨WorkerPc.exited, fun x hx => WorkerPc.noConfusion hx,
      fun x hx => WorkerPc.noConfusion hx, rfl, rfl, rfl, rfl, ?_⟩)⟩
    show m.workers.set k wk = m.workers.set k { wk with pc := WorkerPc.exited }
    rw [← hpc]

/-- Queue discipline, one event: what was queued at the start followed by
what was accepted is what was taken followed by what is queued. -/
theorem Machine.step_fifo (m : Machine El σ) (e : Event) (base : List (Option Nat))
    (h : base ++ m.accepted = m.dequeued ++ m.sys.pool.taskQue_) :
    base ++ (m.step e).accepted = (m.step e).dequeued ++ (m.step e).sys.pool.taskQue_ := by
  cases e with
  | submit task =>
    obtain ⟨h1, _, _, h4⟩ := Machine.step_submit m task
    rcases h4 with ⟨_, hq, _, ha⟩ | ⟨_, hq, _, ha⟩
    · rw [h1, hq, ha, ← List.append_assoc, h, List.append_assoc]
    · rw [h1, hq, ha, h]
  | work k b d =>
    cases hk : m.workers[k]? with
    | none => rw [Machine.step_work_none m k b d hk]; exact h
    | some wk =>
      obtain ⟨ha, _, hc⟩ := Machine.step_work m k b d wk hk
      rcases hc with ⟨task, rest, _, hq, hq1, _, hd, _, _⟩ | ⟨t, _, hq1, _, hd, _, _⟩ |
        ⟨pc1, _, _, hq1, _, hd, _, _⟩
      · rw [ha, hq1, hd, h, hq]; simp
      · rw [ha, hq1, hd, h]
      · rw [ha, hq1, hd, h]

/-- Pending count, one event: modulo `2^32` it moves with the two logs. -/
theorem Machine.step_count (m : Machine El σ) (e : Event) (c : Nat)
    (h : (m.sys.pool.taskSize_ + m.dequeued.length) % 4294967296
      = (c + m.accepted.length) % 4294967296) :
    ((m.step e).sys.pool.taskSize_ + (m.step e).dequeued.length) % 4294967296
      = (c + (m.step e).accepted.length) % 4294967296 := by
  cases e with
  | submit task =>
    obtain ⟨h1, _, _, h4⟩ := Machine.step_submit m task
    rcases h4 with ⟨_, _, hs, ha⟩ | ⟨_, _, hs, ha⟩
    · rw [h1, hs, ha, List.length_append, List.length_singleton, inc32_eq_mod]; omega
    · rw [h1, hs, ha, h]
  | work k b d =>
    cases hk : m.workers[k]? with
    | none => rw [Machine.step_work_none m k b d hk]; exact h
    | some wk =>
      obtain ⟨ha, _, hc⟩ := Machine.step_work m k b d wk hk
      rcases hc with ⟨task, rest, _, _, _, hs, hd, _, _⟩ | ⟨t, _, _, hs, hd, _, _⟩ |
        ⟨pc1, _, _, _, hs, hd, _, _⟩
      · rw [ha, hs, hd, List.length_append, List.length_singleton, dec32_eq_mod]; omega
      · rw [ha, hs, hd, h]
      · rw [ha, hs, hd, h]

theorem Machine.held_single_running (wk : Worker) (t : Option Nat) :
    Machine.held [{ wk with pc := WorkerPc.running t }] = [t] := by
  simp [Machine.held]

theorem Machine.held_single_other (wk : Worker) (h : ∀ x, wk.pc ≠ WorkerPc.running x) :
    Machine.held [wk] = [] := by
  cases hpc : wk.pc with
  | running x => exact absurd hpc (h x)
  | acquire => simp [Machine.held, hpc]
  | waitTimed => simp [Machine.held, hpc]
  | waitForever => simp [Machine.held, hpc]
  | exited => simp [Machine.held, hpc]

/-- Single worker in `MODE_FIXED`, one event: the pool keeps its single
worker; the tasks on which `run()` was invoked are, in order, among the tasks
the worker took and has no longer in hand; and they are exactly those tasks
(the null ones apart) as long as every task in hand or queued is bound to a
completion state that still exists. -/
theorem Machine.step_single (m : Machine El σ) (e : Event) (wk : Worker)
    (base : List (Option Nat)) (log0 : List Nat) (hw : m.workers = [wk])
    (hmode : m.sys.pool.poolMode_ = PoolMode.MODE_FIXED) :
    (∃ wk1, (m.step e).workers = [wk1]) ∧
    (m.step e).sys.pool.poolMode_ = PoolMode.MODE_FIXED ∧
    ((∃ pre done, base ++ m.dequeued = pre ++ Machine.held m.workers ∧
        m.sys.heap.runLog = log0 ++ done ∧ done.Sublist pre.reduceOption) →
      ∃ pre done, base ++ (m.step e).dequeued = pre ++ Machine.held (m.step e).workers ∧
        (m.step e).sys.heap.runLog = log0 ++ done ∧ done.Sublist pre.reduceOption) ∧
    (((∀ t, some t ∈ Machine.held m.workers ++ m.sys.pool.taskQue_ →
          Task.locks t m.sys.heap = true) ∧
        ∃ pre, base ++ m.dequeued = pre ++ Machine.held m.workers ∧
          m.sys.heap.runLog = log0 ++ pre.reduceOption) →
      (∀ t, some t ∈ Machine.held (m.step e).workers ++ (m.step e).sys.pool.taskQue_ →
          Task.locks t (m.step e).sys.heap = true) ∧
        ∃ pre, base ++ (m.step e).dequeued = pre ++ Machine.held (m.step e).workers ∧
          (m.step e).sys.heap.runLog = log0 ++ pre.reduceOption) := by
  cases e with
  | submit task =>
    obtain ⟨h1, h2, h3, h4⟩ := Machine.step_submit m task
    have hws : (m.step (Event.submit task)).workers = m.workers := by
      simp [Machine.step, Machine.newWorkers,
        ThreadPool.submitTask_fixed_launched task m.sys hmode]
    have hlog : (m.step (Event.submit task)).sys.heap.runLog = m.sys.heap.runLog := by
      rw [h2, Result.new_runLog]
    refine ⟨⟨wk, by rw [hws, hw]⟩, by rw [h3, hmode], ?_, ?_⟩
    · rintro ⟨pre, done, ha, hb, hc⟩
      exact ⟨pre, done, by rw [h1, hws, ha], by rw [hlog, hb], hc⟩
    · rintro ⟨hlive, pre, ha, hb⟩
      refine ⟨?_, pre, by rw [h1, hws, ha], by rw [hlog, hb]⟩
      intro t ht
      rw [h2]
      rw [hws] at ht
      rcases h4 with ⟨_, hq, _, _⟩ | ⟨_, hq, _, _⟩
      · rw [hq, ← List.append_assoc, List.mem_append] at ht
        rcases ht with ht | ht
        · exact Result.new_locks task _ t m.sys.heap (hlive t ht)
        · have : some t = task := by simpa using ht
          rw [← this]
          exact Result.new_locks_self t _ m.sys.heap
      · rw [hq] at ht
        exact Result.new_locks task _ t m.sys.heap (hlive t ht)
  | work k b d =>
    cases hk : m.workers[k]? with
    | none =>
      rw [Machine.step_work_none m k b d hk]
      exact ⟨⟨wk, hw⟩, hmode, fun h => h, fun h => h⟩
    | some v =>
      have hk0 : k = 0 := by
        rw [hw] at hk
        cases k with
        | zero => rfl
        | succ j => simp at hk
      subst hk0
      have hv : v = wk := by
        rw [hw] at hk
        simpa using hk.symm
      subst hv
      obtain ⟨_, hm, hc⟩ := Machine.step_work m 0 b d v hk
      rcases hc with ⟨task, rest, hpc, hq, hq1, _, hd, he, hws⟩ | ⟨t, hpc, hq1, _, hd, he, hws⟩ |
        ⟨pc1, hpc, hpc1, hq1, _, hd, he, hws⟩
      · rw [hw] at hws
        have hnot : ∀ x, v.pc ≠ WorkerPc.running x := by intro x; rw [hpc]; simp
        have hheld : Machine.held m.workers = [] := by
          rw [hw]; exact Machine.held_single_other v hnot
        have hheld1 : Machine.held (m.step (Event.work 0 b d)).workers = [task] := by
          rw [hws, List.set_cons_zero, Machine.held_single_running]
        refine ⟨⟨_, hws⟩, by rw [hm, hmode], ?_, ?_⟩
        · rintro ⟨pre, done, ha, hb, hc⟩
          rw [hheld, List.append_nil] at ha
          exact ⟨pre, done, by rw [hd, hheld1, ← List.append_assoc, ha], by rw [he, hb], hc⟩
        · rintro ⟨hlive, pre, ha, hb⟩
          rw [hheld, List.append_nil] at ha
          refine ⟨?_, pre, by rw [hd, hheld1, ← List.append_assoc, ha], by rw [he, hb]⟩
          intro t ht
          rw [he]
          apply hlive t
          rw [hheld1, hq1] at ht
          rw [hheld, hq]
          simpa using ht
      · rw [hw] at hws
        have hheld : Machine.held m.workers = [t] := by
          rw [hw]; simp [Machine.held, hpc]
        have hheld1 : Machine.held (m.step (Event.work 0 b d)).workers = [] := by
          rw [hws, List.set_cons_zero]; simp [Machine.held]
        refine ⟨⟨_, hws⟩, by rw [hm, hmode], ?_, ?_⟩
        · rintro ⟨pre, done, ha, hb, hc⟩
          cases t with
          | none =>
            refine ⟨pre ++ [none], done, by rw [hd, hheld1, ha, hheld, List.append_nil], ?_, ?_⟩
            · rw [he]; exact hb
            · simpa [List.reduceOption_append] using hc
          | some u =>
            have hrun : (m.step (Event.work 0 b d)).sys.heap = Task.exec u m.sys.heap := he
            rcases Task.exec_runLog u m.sys.heap with hx | hx
            · refine ⟨pre ++ [some u], done, by rw [hd, hheld1, ha, hheld, List.append_nil],
                by rw [hrun, hx, hb], ?_⟩
              rw [List.reduceOption_append]
              exact List.Sublist.trans hc (List.sublist_append_left _ _)
            · refine ⟨pre ++ [some u], done ++ [u],
                by rw [hd, hheld1, ha, hheld, List.append_nil],
                by rw [hrun, hx, hb, List.append_assoc], ?_⟩
              rw [List.reduceOption_append]
              exact List.Sublist.append hc (by simp)
        · rintro ⟨hlive, pre, ha, hb⟩
          refine ⟨?_, pre ++ [t], by rw [hd, hheld1, ha, hheld, List.append_nil], ?_⟩
          · intro x hx
            rw [hheld1, hq1, List.nil_append] at hx
            have hx1 : Task.locks x m.sys.heap = true :=
              hlive x (List.mem_append_right _ hx)
            rw [he]
            cases t with
            | none => exact hx1
            | some u => exact Task.exec_locks u x m.sys.heap hx1
          · cases t with
            | none =>
              rw [he]
              simpa [List.reduceOption_append] using hb
            | some u =>
              have hrun : (m.step (Event.work 0 b d)).sys.heap = Task.exec u m.sys.heap := he
              have hu : Task.locks u m.sys.heap = true :=
                hlive u (List.mem_append_left _ (by rw [hheld]; simp))
              rw [hrun, Task.exec_locks_runLog u m.sys.heap hu, hb, List.reduceOption_append,
                List.append_assoc]
              simp
      · rw [hw] at hws
        have hheld : Machine.held m.workers = [] := by
          rw [hw]; exact Machine.held_single_other v hpc
        have hheld1 : Machine.held (m.step (Event.work 0 b d)).workers = [] := by
          rw [hws, List.set_cons_zero]; exact Machine.held_single_other _ hpc1
        refine ⟨⟨_, hws⟩, by rw [hm, hmode], ?_, ?_⟩
        · rintro ⟨pre, done, ha, hb, hc⟩
          exact ⟨pre, done, by rw [hd, hheld1, ha, hheld], by rw [he, hb], hc⟩
        · rintro ⟨hlive, pre, ha, hb⟩
          refine ⟨?_, pre, by rw [hd, hheld1, ha, hheld], by rw [he, hb]⟩
          intro t ht
          rw [he]
          apply hlive t
          rw [hheld1, hq1] at ht
          rw [hheld]
          exact ht

/-- Queue discipline over a run of events. -/
theorem Machine.run_fifo (evs : List Event) (base : List (Option Nat)) :
    ∀ m : Machine El σ, base ++ m.accepted = m.dequeued ++ m.sys.pool.taskQue_ →
      base ++ (Machine.run evs m).accepted
        = (Machine.run evs m).dequeued ++ (Machine.run evs m).sys.pool.taskQue_ := by
  induction evs with
  | nil => intro m h; exact h
  | cons e es ih => intro m h; exact ih (m.step e) (Machine.step_fifo m e base h)

/-- Pending count over a run of events. -/
theorem Machine.run_count (evs : List Event) (c : Nat) :
    ∀ m : Machine El σ,
      (m.sys.pool.taskSize_ + m.dequeued.length) % 4294967296
        = (c + m.accepted.length) % 4294967296 →
      ((Machine.run evs m).sys.pool.taskSize_ + (Machine.run evs m).dequeued.length) % 4294967296
        = (c + (Machine.run evs m).accepted.length) % 4294967296 := by
  induction evs with
  | nil => intro m h; exact h
  | cons e es ih => intro m h; exact ih (m.step e) (Machine.step_count m e c h)

/-- Single worker in `MODE_FIXED` over a run of events. -/
theorem Machine.run_single (evs : List Event) (base : List (Option Nat)) (log0 : List Nat) :
    ∀ (m : Machine El σ) (wk : Worker), m.workers = [wk] →
      m.sys.pool.poolMode_ = PoolMode.MODE_FIXED →
      ((∃ pre done, base ++ m.dequeued = pre ++ Machine.held m.workers ∧
          m.sys.heap.runLog = log0 ++ done ∧ done.Sublist pre.reduceOption) →
        ∃ pre done,
          base ++ (Machine.run evs m).dequeued = pre ++ Machine.held (Machine.run evs m).workers ∧
          (Machine.run evs m).sys.heap.runLog = log0 ++ done ∧ done.Sublist pre.reduceOption) ∧
      (((∀ t, some t ∈ Machine.held m.workers ++ m.sys.pool.taskQue_ →
            Task.locks t m.sys.heap = true) ∧
          ∃ pre, base ++ m.dequeued = pre ++ Machine.held m.workers ∧
            m.sys.heap.runLog = log0 ++ pre.reduceOption) →
        ∃ pre,
          base ++ (Machine.run evs m).dequeued = pre ++ Machine.held (Machine.run evs m).workers ∧
          (Machine.run evs m).sys.heap.runLog = log0 ++ pre.reduceOption) := by
  induction evs with
  | nil =>
    intro m wk _ _
    exact ⟨fun h => h, fun h => h.2⟩
  | cons e es ih =>
    intro m wk hw hmode
    obtain ⟨⟨wk1, h1⟩, h2, h3, h4⟩ := Machine.step_single m e wk base log0 hw hmode
    obtain ⟨h5, h6⟩ := ih (m.step e) wk1 h1 h2
    exact ⟨fun h => h5 (h3 h), fun h => h6 (h4 h)⟩

/-- The fields `start` leaves alone, and the current worker count it sets. -/
theorem ThreadPool.start_fields (n : Nat) (s s1 : Sys El σ) (h : ThreadPool.start n s = some s1) :
    s1.pool.taskQue_ = s.pool.taskQue_ ∧
    s1.pool.taskQueMaxThreshold_ = s.pool.taskQueMaxThreshold_ ∧
    s1.pool.threadSizeThreshold_ = s.pool.threadSizeThreshold_ ∧
    s1.pool.poolMode_ = s.pool.poolMode_ ∧
    s1.pool.curThreadSize_ = u32 n ∧
    s1.pool.isPoolRunning_ = true := by
  unfold ThreadPool.start at h
  cases hl : ThreadPool.startLaunch
      (ThreadPool.startCreate n (s.pool.threads_, s.generateId_)).1 (List.range n)
      (s.launched, s.pool.idleThreadSize_) with
  | none => simp [hl] at h
  | some x =>
    simp only [hl, Option.some.injEq] at h
    subst h
    exact ⟨rfl, rfl, rfl, rfl, rfl, rfl⟩

/-- The current worker count after `submitTask` stays within the maximum. -/
theorem ThreadPool.submitTask_curThreadSize (task : Option Nat) (s : Sys El σ)
    (h : s.pool.curThreadSize_ ≤ s.pool.threadSizeThreshold_) :
    (ThreadPool.submitTask task s).2.pool.curThreadSize_ ≤ s.pool.threadSizeThreshold_ := by
  simp only [ThreadPool.submitTask]
  split_ifs with h1 h2
  · have h3 : s.pool.curThreadSize_ < s.pool.threadSizeThreshold_ := h2.2.2
    have h4 := inc32_le s.pool.curThreadSize_
    show inc32 s.pool.curThreadSize_ ≤ s.pool.threadSizeThreshold_
    omega
  · exact h
  · exact h

/-- One operation keeps the queue within the maximum queue length, unless it
is a `setTaskQueMaxThreshold` below the current queue length. -/
theorem PoolOp.apply_bound (s s1 : Sys El σ) (op : PoolOp)
    (hinv : s.pool.taskQue_.length ≤ s.pool.taskQueMaxThreshold_)
    (hkeep : op.keepsBound s = true) (happly : op.apply s = some s1) :
    s1.pool.taskQue_.length ≤ s1.pool.taskQueMaxThreshold_ := by
  cases op with
  | setMode mode =>
    simp only [PoolOp.apply, Option.some.injEq] at happly
    subst happly
    simp only [ThreadPool.setMode]
    split_ifs <;> exact hinv
  | setTaskQueMaxThreshold n =>
    simp only [PoolOp.apply, Option.some.injEq] at happly
    subst happly
    simp only [PoolOp.keepsBound, Bool.or_eq_true, decide_eq_true_eq] at hkeep
    simp only [ThreadPool.setTaskQueMaxThreshold, ThreadPool.checkRunningState]
    split_ifs with hr
    · exact hinv
    · rcases hkeep with h | h
      · exact absurd h hr
      · exact h
  | setThreadSizeThreshold n =>
    simp only [PoolOp.apply, Option.some.injEq] at happly
    subst happly
    simp only [ThreadPool.setThreadSizeThreshold]
    split_ifs <;> exact hinv
  | start n =>
    obtain ⟨h1, h2, _⟩ := ThreadPool.start_fields n s s1 happly
    rw [h1, h2]
    exact hinv
  | submitTask task =>
    simp only [PoolOp.apply, Option.some.injEq] at happly
    subst happly
    rw [ThreadPool.submitTask_taskQue, (ThreadPool.submitTask_config task s).1]
    split_ifs with h
    · rw [List.length_append, List.length_singleton]
      exact h
    · exact hinv
  | check threadId =>
    simp only [PoolOp.apply, Option.some.injEq] at happly
    subst happly
    show (ThreadPool.threadFunc_check threadId s.pool).2.taskQue_.length
      ≤ (ThreadPool.threadFunc_check threadId s.pool).2.taskQueMaxThreshold_
    rw [(ThreadPool.threadFunc_check_config threadId s.pool).2.2.2]
    cases hq : s.pool.taskQue_ with
    | nil =>
      rw [(ThreadPool.threadFunc_check_nil threadId s.pool hq).1]
      exact Nat.zero_le _
    | cons task rest =>
      rw [ThreadPool.threadFunc_check_cons threadId s.pool task rest hq]
      rw [hq, List.length_cons] at hinv
      exact Nat.le_of_succ_le hinv
  | timedWake threadId b d =>
    simp only [PoolOp.apply, Option.some.injEq] at happly
    subst happly
    simp only [ThreadPool.threadFunc_timedWake]
    split_ifs <;> exact hinv
  | run task =>
    simp only [PoolOp.apply, Option.some.injEq] at happly
    subst happly
    exact hinv

/-- The bound over a sequence of operations. -/
theorem PoolOp.runAll_bound (ops : List PoolOp) :
    ∀ s s1 : Sys El σ, s.pool.taskQue_.length ≤ s.pool.taskQueMaxThreshold_ →
      PoolOp.allKeepBound ops s = true → PoolOp.runAll ops s = some s1 →
      s1.pool.taskQue_.length ≤ s1.pool.taskQueMaxThreshold_ := by
  induction ops with
  | nil =>
    intro s s1 hinv _ hrun
    simp only [PoolOp.runAll, Option.some.injEq] at hrun
    subst hrun
    exact hinv
  | cons op rest ih =>
    intro s s1 hinv hkeep hrun
    simp only [PoolOp.allKeepBound, Bool.and_eq_true] at hkeep
    simp only [PoolOp.runAll] at hrun
    cases ha : op.apply s with
    | none => simp [ha] at hrun
    | some s2 =>
      simp only [ha] at hrun hkeep
      exact ih s2 s1 (PoolOp.apply_bound s s2 op hinv hkeep.1 ha) hkeep.2 hrun

/-- One event keeps the maximum worker count and keeps the current worker
count within it. -/
theorem Machine.step_cur (m : Machine El σ) (e : Event)
    (h : m.sys.pool.curThreadSize_ ≤ m.sys.pool.threadSizeThreshold_) :
    (m.step e).sys.pool.threadSizeThreshold_ = m.sys.pool.threadSizeThreshold_ ∧
    (m.step e).sys.pool.curThreadSize_ ≤ m.sys.pool.threadSizeThreshold_ := by
  cases e with
  | submit task =>
    exact ⟨(ThreadPool.submitTask_config task m.sys).2.1,
      ThreadPool.submitTask_curThreadSize task m.sys h⟩
  | work k b d =>
    cases hk : m.workers[k]? with
    | none =>
      rw [Machine.step_work_none m k b d hk]
      exact ⟨rfl, h⟩
    | some wk =>
      cases hpc : wk.pc with
      | acquire =>
        have hcfg := ThreadPool.threadFunc_check_config wk.threadId m.sys.pool
        cases hq : m.sys.pool.taskQue_ with
        | nil =>
          rw [Machine.step_work_idle m k b d wk hk hpc hq]
          exact ⟨hcfg.2.1, by rw [show _ = _ from hcfg.2.2.1]; exact h⟩
        | cons task rest =>
          rw [Machine.step_work_take m k b d wk task rest hk hpc hq]
          exact ⟨hcfg.2.1, by rw [show _ = _ from hcfg.2.2.1]; exact h⟩
      | waitTimed =>
        have hcfg := ThreadPool.threadFunc_timedWake_config wk.threadId b d m.sys.pool
        rw [Machine.step_work_wake m k b d wk hk hpc]
        exact ⟨hcfg.2.1, Nat.le_trans hcfg.2.2.2 h⟩
      | waitForever =>
        rw [Machine.step_work_woken m k b d wk hk hpc]
        exact ⟨rfl, h⟩
      | running t =>
        rw [Machine.step_work_exec m k b d wk t hk hpc]
        exact ⟨rfl, h⟩
      | exited =>
        rw [Machine.step_work_exited m k b d wk hk hpc]
        exact ⟨rfl, h⟩

/-- The current worker count over a run of events. -/
theorem Machine.run_cur (evs : List Event) :
    ∀ m : Machine El σ, m.sys.pool.curThreadSize_ ≤ m.sys.pool.threadSizeThreshold_ →
      (Machine.run evs m).sys.pool.threadSizeThreshold_ = m.sys.pool.threadSizeThreshold_ ∧
      (Machine.run evs m).sys.pool.curThreadSize_ ≤ m.sys.pool.threadSizeThreshold_ := by
  induction evs with
  | nil => intro m h; exact ⟨rfl, h⟩
  | cons e es ih =>
    intro m h
    obtain ⟨h1, h2⟩ := Machine.step_cur m e h
    obtain ⟨h3, h4⟩ := ih (m.step e) (by rw [h1]; exact h2)
    exact ⟨by simp only [Machine.run]; rw [h3, h1], by simp only [Machine.run]; rw [← h1]; exact h4⟩

/-- C8: the task queue is strict FIFO.  An accepted `submitTask` appends
its task at the tail and increments the pending count; a dequeue removes the
head and decrements the pending count (the count is an `unsigned int`, so the
change is exactly one unless it wraps at `2^32`).  Hence, for every sequence
of submissions and worker steps from any pool state, the tasks queued at the
start followed by the accepted ones are the dequeued ones followed by the
queue, so the `k`-th task dequeued is the `k`-th task accepted; the pending
count follows the two logs modulo `2^32`; and with a single worker in
`MODE_FIXED` the tasks are executed in the order of their submission: the
tasks on which `Task::exec` invoked `run()` since the start are, in that
order, among the non-null tasks in hand or queued at the start followed by
the accepted ones; and when every task in hand or queued at the start is
bound to a completion state that still exists (no `Result` is destroyed
during the run), they are exactly those tasks, in that order, up to the ones
still in hand or queued. -/
theorem taskQue_fifo (s : Sys El σ) (ws : List Worker) (evs : List Event) :
    (∀ (task : Option Nat) (s1 : Sys El σ),
      s1.pool.taskQue_.length < s1.pool.taskQueMaxThreshold_ →
        (ThreadPool.submitTask task s1).2.pool.taskQue_ = s1.pool.taskQue_ ++ [task] ∧
        (ThreadPool.submitTask task s1).2.pool.taskSize_ = inc32 s1.pool.taskSize_ ∧
        (s1.pool.taskSize_ + 1 < 4294967296 →
          (ThreadPool.submitTask task s1).2.pool.taskSize_ = s1.pool.taskSize_ + 1)) ∧
    (∀ (threadId : Nat) (p : ThreadPool) (task : Option Nat) (rest : List (Option Nat)),
      p.taskQue_ = task :: rest →
        (ThreadPool.threadFunc_check threadId p).1 = WorkerPc.running task ∧
        (ThreadPool.threadFunc_check threadId p).2.taskQue_ = rest ∧
        (ThreadPool.threadFunc_check threadId p).2.taskSize_ = dec32 p.taskSize_ ∧
        (0 < p.taskSize_ → p.taskSize_ < 4294967296 →
          (ThreadPool.threadFunc_check threadId p).2.taskSize_ = p.taskSize_ - 1)) ∧
    s.pool.taskQue_ ++ (Machine.run evs (Machine.boot s ws)).accepted
      = (Machine.run evs (Machine.boot s ws)).dequeued
          ++ (Machine.run evs (Machine.boot s ws)).sys.pool.taskQue_ ∧
    (∀ (k : Nat) (task : Option Nat),
      (Machine.run evs (Machine.boot s ws)).dequeued[k]? = some task →
        (s.pool.taskQue_ ++ (Machine.run evs (Machine.boot s ws)).accepted)[k]? = some task) ∧
    ((Machine.run evs (Machine.boot s ws)).sys.pool.taskSize_
        + (Machine.run evs (Machine.boot s ws)).dequeued.length) % 4294967296
      = (s.pool.taskSize_ + (Machine.run evs (Machine.boot s ws)).accepted.length)
          % 4294967296 ∧
    (∀ wk : Worker, ws = [wk] → s.pool.poolMode_ = PoolMode.MODE_FIXED →
      (∃ done, (Machine.run evs (Machine.boot s ws)).sys.heap.runLog = s.heap.runLog ++ done ∧
        done.Sublist
          (Machine.held [wk] ++ s.pool.taskQue_
            ++ (Machine.run evs (Machine.boot s ws)).accepted).reduceOption) ∧
      ((∀ t, some t ∈ Machine.held [wk] ++ s.pool.taskQue_ → Task.locks t s.heap = true) →
        (Machine.run evs (Machine.boot s ws)).sys.heap.runLog
            ++ (Machine.held (Machine.run evs (Machine.boot s ws)).workers
                ++ (Machine.run evs (Machine.boot s ws)).sys.pool.taskQue_).reduceOption
          = s.heap.runLog
            ++ (Machine.held [wk] ++ s.pool.taskQue_
                ++ (Machine.run evs (Machine.boot s ws)).accepted).reduceOption)) := by
  have hfifo := Machine.run_fifo evs s.pool.taskQue_ (Machine.boot s ws) (by simp [Machine.boot])
  refine ⟨?_, ?_, hfifo, ?_, ?_, ?_⟩
  · intro task s1 h
    refine ⟨?_, ?_, ?_⟩
    · rw [ThreadPool.submitTask_taskQue, if_pos h]
    · rw [ThreadPool.submitTask_taskSize, if_pos h]
    · intro hlt
      rw [ThreadPool.submitTask_taskSize, if_pos h, inc32_eq_mod]
      exact Nat.mod_eq_of_lt hlt
  · intro threadId p task rest h
    rw [ThreadPool.threadFunc_check_cons threadId p task rest h]
    refine ⟨rfl, rfl, rfl, ?_⟩
    intro h0 h1
    show dec32 p.taskSize_ = p.taskSize_ - 1
    rw [dec32_eq_mod]
    omega
  · intro k task hk
    rw [hfifo]
    have hlt : k < (Machine.run evs (Machine.boot s ws)).dequeued.length :=
      (List.getElem?_eq_some.mp hk).1
    rw [List.getElem?_append_left hlt]
    exact hk
  · exact Machine.run_count evs s.pool.taskSize_ (Machine.boot s ws) (by simp [Machine.boot])
  · intro wk hws hmode
    have hsingle := Machine.run_single evs (Machine.held [wk]) s.heap.runLog (Machine.boot s ws) wk
      (by simp [Machine.boot, hws]) hmode
    have hall : Machine.held [wk] ++ s.pool.taskQue_
          ++ (Machine.run evs (Machine.boot s ws)).accepted
        = Machine.held [wk] ++ (Machine.run evs (Machine.boot s ws)).dequeued
          ++ (Machine.run evs (Machine.boot s ws)).sys.pool.taskQue_ := by
      rw [List.append_assoc, hfifo, ← List.append_assoc]
    refine ⟨?_, ?_⟩
    · obtain ⟨pre, done, ha, hb, hc⟩ := hsingle.1
        ⟨[], [], by simp [Machine.boot, hws], by simp [Machine.boot], by simp⟩
      refine ⟨done, hb, ?_⟩
      rw [hall, ha, List.append_assoc, List.reduceOption_append]
      exact List.Sublist.trans hc (List.sublist_append_left _ _)
    · intro hlive
      obtain ⟨pre, ha, hb⟩ := hsingle.2
        ⟨by simpa [Machine.boot, hws] using hlive, [], by simp [Machine.boot, hws],
          by simp [Machine.boot]⟩
      rw [hall, ha, hb]
      simp only [List.append_assoc, List.reduceOption_append]

/-- C9 (amended): in every state reachable from a newly constructed pool
through `setMode`, `setTaskQueMaxThreshold`, `setThreadSizeThreshold`,
`start`, `submitTask` and worker steps, the queue length is at most the
current maximum queue length, provided no `setTaskQueMaxThreshold` takes
effect with a threshold below the number of tasks queued at that moment. -/
theorem taskQue_bounded (generateId : Nat) (w : World El σ) (ops : List PoolOp) (s : Sys El σ)
    (hkeep : PoolOp.allKeepBound ops (Sys.init generateId w) = true)
    (hrun : PoolOp.runAll ops (Sys.init generateId w) = some s) :
    s.pool.taskQue_.length ≤ s.pool.taskQueMaxThreshold_ :=
  PoolOp.runAll_bound ops (Sys.init generateId w) s
    (by simp [Sys.init, ThreadPool.new]) hkeep hrun

theorem Machine.liveCount_append (ws vs : List Worker) :
    Machine.liveCount (ws ++ vs) = Machine.liveCount ws + Machine.liveCount vs := by
  simp [Machine.liveCount, List.countP_append]

/-- Threads just started are all inside `threadFunc`. -/
theorem Machine.liveCount_newWorkers (n : Nat) (l : List Nat) :
    Machine.liveCount (Machine.newWorkers n l) = (Machine.newWorkers n l).length := by
  unfold Machine.liveCount Machine.newWorkers
  rw [List.countP_eq_length]
  intro wk hwk
  simp only [List.mem_map] at hwk
  obtain ⟨id, _, rfl⟩ := hwk
  simp

/-- Replacing worker `k` changes the number of live workers by that worker
alone. -/
theorem Machine.liveCount_set (wk1 : Worker) :
    ∀ (ws : List Worker) (k : Nat) (wk : Worker), ws[k]? = some wk →
      Machine.liveCount (ws.set k wk1) + (if wk.pc = WorkerPc.exited then 0 else 1)
        = Machine.liveCount ws + (if wk1.pc = WorkerPc.exited then 0 else 1) := by
  intro ws
  induction ws with
  | nil => intro k wk h; simp at h
  | cons a as ih =>
    intro k wk h
    cases k with
    | zero =>
      have ha : a = wk := by simpa using h
      subst ha
      simp only [List.set_cons_zero, Machine.liveCount, List.countP_cons]
      by_cases h1 : a.pc = WorkerPc.exited <;> by_cases h2 : wk1.pc = WorkerPc.exited <;>
        simp [h1, h2]
    | succ j =>
      have hj : as[j]? = some wk := by simpa using h
      have := ih j wk hj
      simp only [List.set_cons_succ, Machine.liveCount, List.countP_cons] at this ⊢
      omega

/-- The second loop of `start` starts one thread per index. -/
theorem ThreadPool.startLaunch_length (m : List (Nat × Thread)) :
    ∀ (is l l1 : List Nat) (idle idle1 : Nat),
      ThreadPool.startLaunch m is (l, idle) = some (l1, idle1) →
      l1.length = l.length + is.length := by
  intro is
  induction is with
  | nil =>
    intro l l1 idle idle1 h
    simp only [ThreadPool.startLaunch, Option.some.injEq, Prod.mk.injEq] at h
    rw [← h.1]; rfl
  | cons i rest ih =>
    intro l l1 idle idle1 h
    simp only [ThreadPool.startLaunch] at h
    cases hl : m.lookup i with
    | none => simp [hl] at h
    | some t =>
      simp only [hl] at h
      have := ih _ _ _ _ h
      rw [this, List.length_append, List.length_singleton, List.length_cons]
      omega

/-- A call of `start(n)` that returns has started `n` threads. -/
theorem ThreadPool.start_launched (n : Nat) (s s1 : Sys El σ)
    (h : ThreadPool.start n s = some s1) : s1.launched.length = s.launched.length + n := by
  unfold ThreadPool.start at h
  cases hl : ThreadPool.startLaunch
      (ThreadPool.startCreate n (s.pool.threads_, s.generateId_)).1 (List.range n)
      (s.launched, s.pool.idleThreadSize_) with
  | none => simp [hl] at h
  | some x =>
    obtain ⟨l1, idle1⟩ := x
    simp only [hl, Option.some.injEq] at h
    subst h
    have := ThreadPool.startLaunch_length _ _ _ _ _ _ hl
    simpa using this

/-- A call of `submitTask` starts at most one thread, and only together with
an increment of a current worker count that is below the maximum. -/
theorem ThreadPool.submitTask_launched (task : Option Nat) (s : Sys El σ) :
    ∃ ids, (ThreadPool.submitTask task s).2.launched = s.launched ++ ids ∧
      ((ids = [] ∧ (ThreadPool.submitTask task s).2.pool.curThreadSize_ = s.pool.curThreadSize_) ∨
        (ids.length ≤ 1 ∧ s.pool.curThreadSize_ < s.pool.threadSizeThreshold_ ∧
          (ThreadPool.submitTask task s).2.pool.curThreadSize_ = inc32 s.pool.curThreadSize_)) := by
  simp only [ThreadPool.submitTask]
  split_ifs with h1 h2
  · simp only [ThreadPool.spawnOne]
    cases hl : (emplace (intKey s.generateId_) ⟨s.generateId_⟩ s.pool.threads_).lookup
        (intKey s.generateId_) with
    | none => exact ⟨[], by simp, Or.inr ⟨by simp, h2.2.2, trivial⟩⟩
    | some t => exact ⟨[t.threadId_], rfl, Or.inr ⟨by simp, h2.2.2, trivial⟩⟩
  · exact ⟨[], by simp, Or.inl ⟨rfl, rfl⟩⟩
  · exact ⟨[], by simp, Or.inl ⟨rfl, rfl⟩⟩

/-- A worker step starts no thread. -/
theorem ThreadPool.threadFunc_launched (b : Bool) (d : Int) (wk : Worker) (s : Sys El σ) :
    (ThreadPool.threadFunc b d wk s).2.launched = s.launched := by
  unfold ThreadPool.threadFunc
  cases wk.pc <;> rfl

/-- One event keeps the number of live worker threads within the current
worker count, when the maximum is below `2^32` (so that the counter does not
wrap), and keeps the workers in step with the log of started threads. -/
theorem Machine.step_live (m : Machine El σ) (e : Event)
    (hK : m.sys.pool.threadSizeThreshold_ < 4294967296)
    (hcur : m.sys.pool.curThreadSize_ ≤ m.sys.pool.threadSizeThreshold_)
    (hlive : Machine.liveCount m.workers ≤ m.sys.pool.curThreadSize_)
    (hlen : m.workers.length = m.sys.launched.length) :
    Machine.liveCount (m.step e).workers ≤ (m.step e).sys.pool.curThreadSize_ ∧
    (m.step e).workers.length = (m.step e).sys.launched.length := by
  cases e with
  | submit task =>
    obtain ⟨ids, h1, h2⟩ := ThreadPool.submitTask_launched task m.sys
    have hw : (m.step (Event.submit task)).workers
        = m.workers ++ Machine.newWorkers m.sys.launched.length (m.sys.launched ++ ids) := by
      show m.workers ++ Machine.newWorkers m.sys.launched.length
        (ThreadPool.submitTask task m.sys).2.launched = _
      rw [h1]
    have hnew : (Machine.newWorkers m.sys.launched.length (m.sys.launched ++ ids)).length
        = ids.length := by
      simp [Machine.newWorkers]
    have hc : (m.step (Event.submit task)).sys.pool.curThreadSize_
        = (ThreadPool.submitTask task m.sys).2.pool.curThreadSize_ := rfl
    have hl : (m.step (Event.submit task)).sys.launched = m.sys.launched ++ ids := h1
    refine ⟨?_, ?_⟩
    · rw [hw, Machine.liveCount_append, Machine.liveCount_newWorkers, hnew, hc]
      rcases h2 with ⟨h3, h4⟩ | ⟨h3, h4, h5⟩
      · rw [h4, h3]; simpa using hlive
      · rw [h5, inc32_eq_mod]
        omega
    · rw [hw, hl, List.length_append, List.length_append, hnew, hlen]
  | work k b d =>
    cases hk : m.workers[k]? with
    | none =>
      rw [Machine.step_work_none m k b d hk]
      exact ⟨hlive, hlen⟩
    | some wk =>
      cases hpc : wk.pc with
      | acquire =>
        have hcfg := ThreadPool.threadFunc_check_config wk.threadId m.sys.pool
        have hset := Machine.liveCount_set
          { wk with pc := (ThreadPool.threadFunc_check wk.threadId m.sys.pool).1 } m.workers k wk hk
        rw [hpc] at hset
        simp only [if_neg (show WorkerPc.acquire ≠ WorkerPc.exited by simp)] at hset
        cases hq : m.sys.pool.taskQue_ with
        | nil =>
          rw [Machine.step_work_idle m k b d wk hk hpc hq]
          refine ⟨?_, by simpa using hlen⟩
          show Machine.liveCount (m.workers.set k _)
            ≤ (ThreadPool.threadFunc_check wk.threadId m.sys.pool).2.curThreadSize_
          rw [hcfg.2.2.1]
          split_ifs at hset <;> omega
        | cons task rest =>
          rw [Machine.step_work_take m k b d wk task rest hk hpc hq]
          have h1 : (ThreadPool.threadFunc_check wk.threadId m.sys.pool).1
              = WorkerPc.running task := by
            rw [ThreadPool.threadFunc_check_cons wk.threadId m.sys.pool task rest hq]
          rw [h1] at hset
          refine ⟨?_, by simpa using hlen⟩
          show Machine.liveCount (m.workers.set k _)
            ≤ (ThreadPool.threadFunc_check wk.threadId m.sys.pool).2.curThreadSize_
          rw [hcfg.2.2.1]
          split_ifs at hset <;> omega
      | waitTimed =>
        have hset := Machine.liveCount_set
          { wk with pc := (ThreadPool.threadFunc_timedWake wk.threadId b d m.sys.pool).1 }
          m.workers k wk hk
        rw [hpc] at hset
        simp only [if_neg (show WorkerPc.waitTimed ≠ WorkerPc.exited by simp)] at hset
        rw [Machine.step_work_wake m k b d wk hk hpc]
        refine ⟨?_, by simpa using hlen⟩
        show Machine.liveCount (m.workers.set k _)
          ≤ (ThreadPool.threadFunc_timedWake wk.threadId b d m.sys.pool).2.curThreadSize_
        by_cases hc : b = true ∧ d ≥ THREAD_MAX_IDLE_TIME
            ∧ m.sys.pool.curThreadSize_ > m.sys.pool.initThreadSize_
        · have h1 : ThreadPool.threadFunc_timedWake wk.threadId b d m.sys.pool
              = (WorkerPc.exited,
                  { m.sys.pool with
                    threads_ := erase wk.threadId m.sys.pool.threads_
                    curThreadSize_ := dec32 m.sys.pool.curThreadSize_
                    idleThreadSize_ := dec32 m.sys.pool.idleThreadSize_ }) := by
            unfold ThreadPool.threadFunc_timedWake
            rw [if_pos hc]
          have h2 : (ThreadPool.threadFunc_timedWake wk.threadId b d m.sys.pool).1
              = WorkerPc.exited := by rw [h1]
          have h3 : (ThreadPool.threadFunc_timedWake wk.threadId b d m.sys.pool).2.curThreadSize_
              = dec32 m.sys.pool.curThreadSize_ := by rw [h1]
          rw [h2] at hset ⊢
          rw [h3, dec32_eq_mod]
          simp only [if_true] at hset
          have := hc.2.2
          omega
        · have h1 : ThreadPool.threadFunc_timedWake wk.threadId b d m.sys.pool
              = (WorkerPc.acquire, m.sys.pool) := by
            unfold ThreadPool.threadFunc_timedWake
            rw [if_neg hc]
          have h2 : (ThreadPool.threadFunc_timedWake wk.threadId b d m.sys.pool).1
              = WorkerPc.acquire := by rw [h1]
          have h3 : (ThreadPool.threadFunc_timedWake wk.threadId b d m.sys.pool).2.curThreadSize_
              = m.sys.pool.curThreadSize_ := by rw [h1]
          rw [h2] at hset ⊢
          rw [h3]
          simp only [if_neg (show WorkerPc.acquire ≠ WorkerPc.exited by simp)] at hset
          omega
      | waitForever =>
        have hset := Machine.liveCount_set { wk with pc := WorkerPc.acquire } m.workers k wk hk
        rw [hpc] at hset
        simp only [if_neg (show WorkerPc.waitForever ≠ WorkerPc.exited by simp),
          if_neg (show WorkerPc.acquire ≠ WorkerPc.exited by simp)] at hset
        rw [Machine.step_work_woken m k b d wk hk hpc]
        refine ⟨?_, by simpa using hlen⟩
        show Machine.liveCount (m.workers.set k _) ≤ m.sys.pool.curThreadSize_
        omega
      | running t =>
        have hset := Machine.liveCount_set { wk with pc := WorkerPc.acquire } m.workers k wk hk
        rw [hpc] at hset
        simp only [if_neg (show WorkerPc.running t ≠ WorkerPc.exited by simp),
          if_neg (show WorkerPc.acquire ≠ WorkerPc.exited by simp)] at hset
        rw [Machine.step_work_exec m k b d wk t hk hpc]
        refine ⟨?_, ?_⟩
        · show Machine.liveCount (m.workers.set k _) ≤ m.sys.pool.curThreadSize_
          omega
        · show (m.workers.set k _).length = m.sys.launched.length
          simpa using hlen
      | exited =>
        have hset := Machine.liveCount_set wk m.workers k wk hk
        rw [Machine.step_work_exited m k b d wk hk hpc]
        refine ⟨?_, by simpa using hlen⟩
        show Machine.liveCount (m.workers.set k wk) ≤ m.sys.pool.curThreadSize_
        omega

/-- The live worker threads over a run of events. -/
theorem Machine.run_live (evs : List Event) :
    ∀ m : Machine El σ, m.sys.pool.threadSizeThreshold_ < 4294967296 →
      m.sys.pool.curThreadSize_ ≤ m.sys.pool.threadSizeThreshold_ →
      Machine.liveCount m.workers ≤ m.sys.pool.curThreadSize_ →
      m.workers.length = m.sys.launched.length →
      Machine.liveCount (Machine.run evs m).workers
        ≤ (Machine.run evs m).sys.pool.curThreadSize_ ∧
      (Machine.run evs m).workers.length = (Machine.run evs m).sys.launched.length := by
  induction evs with
  | nil => intro m _ _ h1 h2; exact ⟨h1, h2⟩
  | cons e es ih =>
    intro m hK hcur hlive hlen
    obtain ⟨h1, h2⟩ := Machine.step_cur m e hcur
    obtain ⟨h3, h4⟩ := Machine.step_live m e hK hcur hlive hlen
    exact ih (m.step e) (by rw [h1]; exact hK) (by rw [h1]; exact h2) h3 h4

/-- C10 (amended): for a `MODE_CACHED` pool with maximum worker count `K`
started with an initial worker count of at most `K`, the counter
`curThreadSize_` never exceeds `K` in any state reached by any sequence of
`submitTask` calls and worker steps (and the maximum stays `K`).  If moreover
`K` is below `2^32` and the pool has started no thread before `start`, then
`start` starts exactly the initial number of threads, and in every such
state the number of worker threads that have been started and have not left
`threadFunc` is at most `curThreadSize_`, hence at most `K`; every started
thread is one of these workers or has exited. -/
theorem curThreadSize_bounded (s s0 : Sys El σ) (K n : Nat)
    (_hmode : s.pool.poolMode_ = PoolMode.MODE_CACHED)
    (hK : s.pool.threadSizeThreshold_ = K) (hn : n ≤ K)
    (hstart : ThreadPool.start n s = some s0) (ws : List Worker) (evs : List Event) :
    (Machine.run evs (Machine.boot s0 ws)).sys.pool.curThreadSize_ ≤ K ∧
    (Machine.run evs (Machine.boot s0 ws)).sys.pool.threadSizeThreshold_ = K ∧
    (K < 4294967296 → s.launched = [] →
      (Machine.newWorkers 0 s0.launched).length = n ∧
      Machine.liveCount (Machine.run evs (Machine.boot s0 (Machine.newWorkers 0 s0.launched))).workers
        ≤ (Machine.run evs
            (Machine.boot s0 (Machine.newWorkers 0 s0.launched))).sys.pool.curThreadSize_ ∧
      (Machine.run evs
        (Machine.boot s0 (Machine.newWorkers 0 s0.launched))).sys.pool.curThreadSize_ ≤ K ∧
      Machine.liveCount (Machine.run evs (Machine.boot s0 (Machine.newWorkers 0 s0.launched))).workers
        ≤ K ∧
      (Machine.run evs (Machine.boot s0 (Machine.newWorkers 0 s0.launched))).workers.length
        = (Machine.run evs
            (Machine.boot s0 (Machine.newWorkers 0 s0.launched))).sys.launched.length) := by
  obtain ⟨_, _, h3, _, h5, _⟩ := ThreadPool.start_fields n s s0 hstart
  have hthr : s0.pool.threadSizeThreshold_ = K := by rw [h3, hK]
  have hcur0 : s0.pool.curThreadSize_ ≤ s0.pool.threadSizeThreshold_ := by
    rw [h5, hthr]
    exact Nat.le_trans (u32_le n) hn
  have hbound : ∀ vs : List Worker,
      (Machine.run evs (Machine.boot s0 vs)).sys.pool.curThreadSize_ ≤ K ∧
      (Machine.run evs (Machine.boot s0 vs)).sys.pool.threadSizeThreshold_ = K := by
    intro vs
    obtain ⟨h6, h7⟩ := Machine.run_cur evs (Machine.boot s0 vs) hcur0
    have h8 : (Machine.boot s0 vs).sys.pool.threadSizeThreshold_ = K := hthr
    exact ⟨by rw [← h8]; exact h7, by rw [h6, h8]⟩
  refine ⟨(hbound ws).1, (hbound ws).2, ?_⟩
  intro hlt hnone
  have hlen : s0.launched.length = n := by
    rw [ThreadPool.start_launched n s s0 hstart, hnone]; simp
  have hnew : (Machine.newWorkers 0 s0.launched).length = n := by
    simp [Machine.newWorkers, hlen]
  have hu : u32 n = n := by
    unfold u32
    exact Nat.mod_eq_of_lt (Nat.lt_of_le_of_lt hn hlt)
  have hrun := Machine.run_live evs (Machine.boot s0 (Machine.newWorkers 0 s0.launched))
    (by show s0.pool.threadSizeThreshold_ < 4294967296; rw [hthr]; exact hlt) hcur0
    (by
      show Machine.liveCount (Machine.newWorkers 0 s0.launched) ≤ s0.pool.curThreadSize_
      rw [Machine.liveCount_newWorkers, hnew, h5, hu])
    (by
      show (Machine.newWorkers 0 s0.launched).length = s0.launched.length
      rw [hnew, hlen])
  have hb := (hbound (Machine.newWorkers 0 s0.launched)).1
  exact ⟨hnew, hrun.1, hb, Nat.le_trans hrun.1 hb, hrun.2⟩

end PoolTheorems

/-- C7 as stated fails: task 1 is queued by an accepted submission and the
queue (maximum 1) is full; a second `submitTask(task1)` is rejected and
returns a `Result` that is not valid (it rebinds task 1 to its completion
state, at address 1).  With no further submission worker 0 takes task 1 and
runs its body: the value is published in the state of the rejected `Result`
and the state of the accepted one (address 0) stays empty. -/
theorem submitTask_rejected_runs :
    Machine.busy.sys.pool.taskQueMaxThreshold_ ≤ Machine.busy.sys.pool.taskQue_.length ∧
    (ThreadPool.submitTask (some 1) Machine.busy.sys).1 = ⟨some 1⟩ ∧
    (ThreadPool.submitTask (some 1) Machine.busy.sys).1.isValid
      (ThreadPool.submitTask (some 1) Machine.busy.sys).2.heap = false ∧
    (ThreadPool.submitTask (some 1) Machine.busy.sys).2.pool = Machine.busy.sys.pool ∧
    (Machine.busy.step (Event.submit (some 1))).sys.heap.runLog = [] ∧
    (Machine.run [Event.work 0 false 0, Event.work 0 false 0]
      (Machine.busy.step (Event.submit (some 1)))).sys.heap.runLog = [1] ∧
    ((Machine.run [Event.work 0 false 0, Event.work 0 false 0]
      (Machine.busy.step (Event.submit (some 1)))).sys.heap.impls 1).map
        (fun i => (i.isValid_, i.sem_.resourceCount_, i.any_.has_value)) = some (false, 1, true) ∧
    ((Machine.run [Event.work 0 false 0, Event.work 0 false 0]
      (Machine.busy.step (Event.submit (some 1)))).sys.heap.impls 0).map
        (fun i => (i.isValid_, i.sem_.resourceCount_, i.any_.has_value)) = some (true, 0, false) :=
  ⟨by decide, rfl, rfl, rfl, rfl, rfl, rfl, rfl⟩

/-- C7 (amended), evaluated: the pool of `Machine.full` has maximum queue
length 1 and task 1 queued; `submitTask(task0)` is rejected, the pool is
unchanged, and after the two steps of worker 0 and a further submission of
task 2 the only `run()` invoked is not on task 0. -/
theorem submitTask_rejected_witness :
    Machine.full.sys.pool.taskQueMaxThreshold_ ≤ Machine.full.sys.pool.taskQue_.length ∧
    (ThreadPool.submitTask (some 0) Machine.full.sys).1.isValid
      (ThreadPool.submitTask (some 0) Machine.full.sys).2.heap = false ∧
    (ThreadPool.submitTask (some 0) Machine.full.sys).2.pool = Machine.full.sys.pool ∧
    (ThreadPool.submitTask (some 0) Machine.full.sys).2.pool.taskQue_ = [some 1] ∧
    (Machine.run [Event.work 0 false 0, Event.work 0 false 0, Event.submit (some 2)]
      (Machine.busy.step (Event.submit (some 0)))).sys.heap.runLog = [1] ∧
    ∃ more,
      (Machine.run [Event.work 0 false 0, Event.work 0 false 0, Event.submit (some 2)]
        (Machine.busy.step (Event.submit (some 0)))).sys.heap.runLog
          = Machine.busy.sys.heap.runLog ++ more ∧
      ∀ t, some 0 = some t → t ∉ more :=
  ⟨by decide,
   (submitTask_rejected Machine.full (some 0) (by decide)).1,
   (submitTask_rejected Machine.full (some 0) (by decide)).2.1,
   rfl,
   rfl,
   (submitTask_rejected Machine.busy (some 0) (by decide)).2.2.2.2.2.2.2.2.2
      (by decide) (by decide)
      [Event.work 0 false 0, Event.work 0 false 0, Event.submit (some 2)]
      (by intro e he; simp at he; rcases he with rfl | rfl | rfl <;> simp [Event.avoids])⟩

/-- C8, evaluated: a `MODE_FIXED` pool with one worker, two submissions and
four worker steps; `run()` is invoked on the tasks in the order of
submission. -/
theorem taskQue_fifo_witness :
    Machine.single.workers = [{ threadId := 0, pc := WorkerPc.acquire }] ∧
    Machine.single.sys.pool.poolMode_ = PoolMode.MODE_FIXED ∧
    (Machine.run Event.demo Machine.single).accepted = [some 0, some 1] ∧
    (Machine.run Event.demo Machine.single).dequeued = [some 0, some 1] ∧
    (Machine.run Event.demo Machine.single).sys.heap.runLog = [0, 1] ∧
    (Machine.run Event.demo (Machine.boot Machine.single.sys Machine.single.workers)).sys.heap.runLog
        ++ (Machine.held
              (Machine.run Event.demo (Machine.boot Machine.single.sys Machine.single.workers)).workers
            ++ (Machine.run Event.demo
              (Machine.boot Machine.single.sys Machine.single.workers)).sys.pool.taskQue_).reduceOption
      = Machine.single.sys.heap.runLog
        ++ (Machine.held [{ threadId := 0, pc := WorkerPc.acquire }]
            ++ Machine.single.sys.pool.taskQue_
            ++ (Machine.run Event.demo
              (Machine.boot Machine.single.sys Machine.single.workers)).accepted).reduceOption :=
  ⟨rfl, rfl, rfl, rfl, rfl,
   ((taskQue_fifo Machine.single.sys Machine.single.workers Event.demo).2.2.2.2.2
      { threadId := 0, pc := WorkerPc.acquire } rfl rfl).2
      (fun _ ht => absurd ht (List.not_mem_nil _))⟩


/-- C9 as stated fails: on a newly constructed pool, `submitTask(task0)`
followed by `setTaskQueMaxThreshold(0)` (the pool is not running, so the
setter takes effect) leaves one task queued under a maximum of zero. -/
theorem taskQue_bound_broken :
    ∃ s : Sys CppTy.El Nat,
      PoolOp.runAll [PoolOp.submitTask (some 0), PoolOp.setTaskQueMaxThreshold 0] Sys.sample
        = some s ∧
      s.pool.taskQue_.length = 1 ∧ s.pool.taskQueMaxThreshold_ = 0 ∧
      ¬ s.pool.taskQue_.length ≤ s.pool.taskQueMaxThreshold_ :=
  ⟨_, rfl, rfl, rfl, by decide⟩

/-- C9 (amended), evaluated on `PoolOp.demo`: the queue holds one task under
a maximum of two. -/
theorem taskQue_bounded_witness :
    PoolOp.allKeepBound PoolOp.demo Sys.sample = true ∧
    (PoolOp.runAll PoolOp.demo Sys.sample).map (fun s => s.pool.taskQue_) = some [some 1] ∧
    ∀ s : Sys CppTy.El Nat, PoolOp.runAll PoolOp.demo Sys.sample = some s →
      s.pool.taskQue_.length ≤ s.pool.taskQueMaxThreshold_ :=
  ⟨rfl, rfl, fun s h => taskQue_bounded 0 World.sample PoolOp.demo s rfl h⟩

/-- C10 as stated fails: an elastic pool with maximum 2 that received two
submissions before `start` has spawned workers 0 and 1; `start(2)` then sets
the counter to 2, registers two more threads and starts the entries 0 and 1
again.  Four worker threads are inside `threadFunc` under a maximum of 2, and
they still are after each of them has taken a step. -/
theorem curThreadSize_undercounts :
    Sys.spawnedTwice.pool.poolMode_ = PoolMode.MODE_CACHED ∧
    Sys.spawnedTwice.pool.threadSizeThreshold_ = 2 ∧
    Sys.spawnedTwice.launched = [0, 1] ∧
    ThreadPool.start 2 Sys.spawnedTwice = some Sys.startedLate ∧
    Sys.startedLate.pool.curThreadSize_ = 2 ∧
    Sys.startedLate.launched = [0, 1, 0, 1] ∧
    Sys.startedLate.pool.threads_.length = 4 ∧
    Machine.liveCount (Machine.newWorkers 0 Sys.startedLate.launched) = 4 ∧
    Sys.startedLate.pool.threadSizeThreshold_
      < Machine.liveCount (Machine.newWorkers 0 Sys.startedLate.launched) ∧
    Machine.liveCount
      (Machine.run
        [Event.work 0 false 0, Event.work 1 false 0, Event.work 2 false 0, Event.work 3 false 0]
        (Machine.boot Sys.startedLate (Machine.newWorkers 0 Sys.startedLate.launched))).workers
      = 4 ∧
    (Machine.run
        [Event.work 0 false 0, Event.work 1 false 0, Event.work 2 false 0, Event.work 3 false 0]
        (Machine.boot Sys.startedLate
          (Machine.newWorkers 0 Sys.startedLate.launched))).sys.pool.curThreadSize_
      = 2 :=
  ⟨rfl, rfl, rfl, rfl, rfl, rfl, rfl, rfl, by decide, rfl, rfl⟩

/-- C10 (amended), evaluated: an elastic pool with maximum 2 started with 1
worker receives four submissions; it grows to 2 workers and no further. -/
theorem curThreadSize_bounded_witness :
    Sys.elastic.pool.poolMode_ = PoolMode.MODE_CACHED ∧
    Sys.elastic.pool.threadSizeThreshold_ = 2 ∧
    Sys.elastic.launched = [] ∧
    ThreadPool.start 1 Sys.elastic = some Sys.elasticStarted ∧
    Machine.elastic.workers = [{ threadId := 0, pc := WorkerPc.acquire }] ∧
    (Machine.run Event.burst Machine.elastic).sys.pool.curThreadSize_ = 2 ∧
    (Machine.run Event.burst Machine.elastic).workers.length = 2 ∧
    Machine.liveCount (Machine.run Event.burst Machine.elastic).workers = 2 ∧
    (Machine.run Event.burst
      (Machine.boot Sys.elasticStarted Machine.elastic.workers)).sys.pool.curThreadSize_ ≤ 2 ∧
    Machine.liveCount
      (Machine.run Event.burst
        (Machine.boot Sys.elasticStarted
          (Machine.newWorkers 0 Sys.elasticStarted.launched))).workers ≤ 2 :=
  ⟨rfl, rfl, rfl, rfl, rfl, by decide, by decide, rfl,
   (curThreadSize_bounded Sys.elastic Sys.elasticStarted 2 1 rfl rfl (by decide) rfl
      Machine.elastic.workers Event.burst).1,
   ((curThreadSize_bounded Sys.elastic Sys.elasticStarted 2 1 rfl rfl (by decide) rfl
      Machine.elastic.workers Event.burst).2.2 (by decide) rfl).2.2.2.1⟩

/-! ## Theorems: worker exit, setters, semaphore -/

/-- C15: each configuration setter is a no-op once the pool is running; when
the pool is not running, `setMode` writes the mode, `setTaskQueMaxThreshold`
the maximum queue length and `setThreadSizeThreshold` the maximum worker
count (this one only in `MODE_CACHED`), and no setter writes any other
field. -/
theorem setters_frame (p : ThreadPool) (mode : PoolMode) (n : Nat) :
    (p.isPoolRunning_ = true →
      p.setMode mode = p ∧ p.setTaskQueMaxThreshold n = p ∧ p.setThreadSizeThreshold n = p) ∧
    (p.isPoolRunning_ = false →
      p.setMode mode = { p with poolMode_ := mode } ∧
      p.setTaskQueMaxThreshold n = { p with taskQueMaxThreshold_ := n } ∧
      (p.poolMode_ = PoolMode.MODE_CACHED →
        p.setThreadSizeThreshold n = { p with threadSizeThreshold_ := n }) ∧
      (p.poolMode_ ≠ PoolMode.MODE_CACHED → p.setThreadSizeThreshold n = p)) := by
  refine ⟨?_, ?_⟩
  · intro h
    simp [ThreadPool.setMode, ThreadPool.setTaskQueMaxThreshold,
      ThreadPool.setThreadSizeThreshold, ThreadPool.checkRunningState, h]
  · intro h
    refine ⟨?_, ?_, ?_, ?_⟩
    · simp [ThreadPool.setMode, ThreadPool.checkRunningState, h]
    · simp [ThreadPool.setTaskQueMaxThreshold, ThreadPool.checkRunningState, h]
    · intro hm
      simp [ThreadPool.setThreadSizeThreshold, ThreadPool.checkRunningState, h, hm]
    · intro hm
      simp [ThreadPool.setThreadSizeThreshold, ThreadPool.checkRunningState, h, hm]

/-- C15, evaluated on a new pool (not running, `MODE_FIXED`) and on the
running pool of `Machine.single`. -/
theorem setters_frame_witness :
    ThreadPool.new.isPoolRunning_ = false ∧
    ThreadPool.new.setTaskQueMaxThreshold 7 = { ThreadPool.new with taskQueMaxThreshold_ := 7 } ∧
    ThreadPool.new.poolMode_ ≠ PoolMode.MODE_CACHED ∧
    ThreadPool.new.setThreadSizeThreshold 7 = ThreadPool.new ∧
    Machine.single.sys.pool.isPoolRunning_ = true ∧
    Machine.single.sys.pool.setMode PoolMode.MODE_CACHED = Machine.single.sys.pool :=
  ⟨rfl,
   ((setters_frame ThreadPool.new PoolMode.MODE_FIXED 7).2 rfl).2.1,
   by decide,
   ((setters_frame ThreadPool.new PoolMode.MODE_FIXED 7).2 rfl).2.2.2 (by decide),
   rfl,
   ((setters_frame Machine.single.sys.pool PoolMode.MODE_CACHED 7).1 rfl).1⟩

theorem SemLog.step_inv (l : SemLog) (c : SemCall) (init : Nat)
    (h : l.sem.isExit_ = false ∧ l.sem.resourceCount_ + l.waits = init + l.posts) :
    (l.step c).sem.isExit_ = false ∧
      (l.step c).sem.resourceCount_ + (l.step c).waits = init + (l.step c).posts := by
  obtain ⟨h1, h2⟩ := h
  cases c with
  | post =>
    simp only [SemLog.step, Semaphore.post, h1, Bool.false_eq_true, if_false]
    exact ⟨trivial, by omega⟩
  | wait =>
    by_cases hpos : 0 < l.sem.resourceCount_
    · have hw : l.sem.wait
          = some { l.sem with resourceCount_ := l.sem.resourceCount_ - 1 } := by
        simp [Semaphore.wait, h1, hpos]
      simp only [SemLog.step, hw]
      exact ⟨h1, by omega⟩
    · have hw : l.sem.wait = none := by
        simp [Semaphore.wait, h1, hpos]
      simp only [SemLog.step, hw]
      exact ⟨h1, h2⟩

theorem SemLog.run_inv (cs : List SemCall) (init : Nat) :
    ∀ l : SemLog, (l.sem.isExit_ = false ∧ l.sem.resourceCount_ + l.waits = init + l.posts) →
      (SemLog.run cs l).sem.isExit_ = false ∧
        (SemLog.run cs l).sem.resourceCount_ + (SemLog.run cs l).waits
          = init + (SemLog.run cs l).posts := by
  induction cs with
  | nil => intro l h; exact h
  | cons c cs ih => intro l h; exact ih (l.step c) (SemLog.step_inv l c init h)

/-- C16: a `Semaphore` starts at its constructor argument (0 for a
default-constructed one); in every state reached from there by `wait` and
`post` calls, `wait()` completes exactly if the count is > 0 and then lowers
the count by one, `post()` (which cannot block) raises it by one, and the
count is initial + completed posts - completed waits, never negative. -/
theorem Semaphore_count (init : Nat) (calls : List SemCall) :
    (Semaphore.new init).resourceCount_ = init ∧
    ((SemLog.run calls (SemLog.start init)).sem.wait.isSome = true
      ↔ 0 < (SemLog.run calls (SemLog.start init)).sem.resourceCount_) ∧
    (∀ s1, (SemLog.run calls (SemLog.start init)).sem.wait = some s1 →
      s1.resourceCount_ + 1 = (SemLog.run calls (SemLog.start init)).sem.resourceCount_) ∧
    (SemLog.run calls (SemLog.start init)).sem.post.resourceCount_
      = (SemLog.run calls (SemLog.start init)).sem.resourceCount_ + 1 ∧
    (SemLog.run calls (SemLog.start init)).sem.resourceCount_
        + (SemLog.run calls (SemLog.start init)).waits
      = init + (SemLog.run calls (SemLog.start init)).posts ∧
    (SemLog.run calls (SemLog.start init)).waits
      ≤ init + (SemLog.run calls (SemLog.start init)).posts ∧
    0 ≤ (SemLog.run calls (SemLog.start init)).sem.resourceCount_ := by
  have hrun := SemLog.run_inv calls init (SemLog.start init) ⟨rfl, rfl⟩
  have hs := hrun.1
  refine ⟨rfl, ?_, ?_, ?_, hrun.2, by omega, Nat.zero_le _⟩
  · simp only [Semaphore.wait, hs, Bool.false_eq_true, if_false]
    split_ifs with hpos
    · simp [hpos]
    · simp [hpos]
  · intro s1 h1
    simp only [Semaphore.wait, hs, Bool.false_eq_true, if_false] at h1
    split_ifs at h1 with hpos
    simp only [Option.some.injEq] at h1
    subst h1
    simp only
    omega
  · simp [Semaphore.post, hs]

/-- C16, evaluated: a semaphore constructed with 0; the first `wait` blocks,
then `post`, `post`, `wait` leave the count at 1 = 0 + 2 - 1. -/
theorem Semaphore_count_witness :
    (Semaphore.new 0).wait = none ∧
    SemLog.run [SemCall.wait, SemCall.post, SemCall.post] (SemLog.start 0) = ⟨⟨false, 2⟩, 2, 0⟩ ∧
    (SemLog.run [SemCall.wait, SemCall.post, SemCall.post] (SemLog.start 0)).sem.wait
      = some ⟨false, 1⟩ ∧
    (1 : Nat) + 1
      = (SemLog.run [SemCall.wait, SemCall.post, SemCall.post] (SemLog.start 0)).sem.resourceCount_ :=
  ⟨rfl, rfl, rfl,
   (Semaphore_count 0 [SemCall.wait, SemCall.post, SemCall.post]).2.2.1 ⟨false, 1⟩ rfl⟩

/-! ## Theorems: repeated `set`, rebinding of a task -/

section RebindTheorems

variable {Ty : Type} {El : Ty → Type} {σ : Type}

/-- C19: `Impl::set` is not guarded against a second call: on a pending
state (count 0, not retrieved), `set(a)` then `set(b)` leave the payload `b`
and the semaphore count 2; the `get()` that follows returns `b` and leaves
the count at 1, the stored payload empty and `isGet_` set. -/
theorem Impl_set_twice (i : Impl El) (a b : Any El)
    (hsem : i.sem_ = Semaphore.new 0) (hget : i.isGet_ = false) :
    ((i.set a).set b).any_ = b ∧
    ((i.set a).set b).sem_ = ⟨false, 2⟩ ∧
    ((i.set a).set b).get
      = Outcome.returned b
          { any_ := Any.empty, sem_ := ⟨false, 1⟩, isValid_ := i.isValid_, isGet_ := true } := by
  cases i with
  | mk any sem isValid isGet =>
    simp only at hsem hget
    subst hsem hget
    simp [Impl.set, Impl.get, Semaphore.post, Semaphore.wait, Semaphore.new]

end RebindTheorems

/-- C19, evaluated on a newly constructed valid state with two
`unsigned long long` payloads. -/
theorem Impl_set_twice_witness :
    (Impl.new true : Impl CppTy.El).sem_ = Semaphore.new 0 ∧
    (Impl.new true : Impl CppTy.El).isGet_ = false ∧
    ((((Impl.new true : Impl CppTy.El).set (Any.ofValue CppTy.ull (1 : Nat))).set
      (Any.ofValue CppTy.ull (2 : Nat))).get)
      = Outcome.returned (Any.ofValue CppTy.ull (2 : Nat))
          { any_ := Any.empty, sem_ := ⟨false, 1⟩, isValid_ := true, isGet_ := true } :=
  ⟨rfl, rfl,
   (Impl_set_twice (Impl.new true : Impl CppTy.El) (Any.ofValue CppTy.ull (1 : Nat))
      (Any.ofValue CppTy.ull (2 : Nat)) rfl rfl).2.2⟩

/-! ## Theorems: `start` and growth -/

/-- C14, the code at the failing inputs.  With `generateId_` at 1, `start(1)`
registers a worker under key 1 and then calls `threads_[0]->start()` on a
key that is absent: undefined behaviour.  On a pool that has spawned worker
0 before `start`, `start(1)` registers worker 1 and launches worker 0 a second
time, never worker 1, and leaves the idle count at 2.  With `generateId_` at
0 on a new pool, `start(2)` launches workers 0 and 1 once each. -/
theorem start_counter_mismatch :
    Sys.counterAtOne.generateId_ = 1 ∧
    (ThreadPool.startCreate 1 (Sys.counterAtOne.pool.threads_, Sys.counterAtOne.generateId_)).1
      = [(1, ⟨1⟩)] ∧
    ThreadPool.start 1 Sys.counterAtOne = none ∧
    Sys.spawnedEarly.pool.isPoolRunning_ = false ∧
    Sys.spawnedEarly.launched = [0] ∧
    (ThreadPool.start 1 Sys.spawnedEarly).map (fun s => s.pool.threads_)
      = some [(0, ⟨0⟩), (1, ⟨1⟩)] ∧
    (ThreadPool.start 1 Sys.spawnedEarly).map (fun s => s.launched) = some [0, 0] ∧
    (ThreadPool.start 1 Sys.spawnedEarly).map (fun s => s.pool.idleThreadSize_) = some 2 ∧
    (ThreadPool.start 2 Sys.sample).map (fun s => s.launched) = some [0, 1] ∧
    (ThreadPool.start 2 Sys.sample).map
        (fun s => (s.pool.curThreadSize_, s.pool.idleThreadSize_, s.pool.isPoolRunning_))
      = some (2, 2, true) :=
  ⟨rfl, rfl, rfl, rfl, rfl, rfl, rfl, rfl, rfl, rfl⟩

section GrowthTheorems

variable {Ty : Type} {El : Ty → Type} {σ : Type}

theorem lookup_append_new (k : Nat) (t : Thread) (m : List (Nat × Thread))
    (h : m.lookup k = none) : (m ++ [(k, t)]).lookup k = some t := by
  induction m with
  | nil => simp [List.lookup]
  | cons e rest ih =>
    obtain ⟨k1, t1⟩ := e
    by_cases hk : k = k1
    · subst hk
      simp [List.lookup] at h
    · have hb : (k == k1) = false := by simpa using hk
      simp only [List.lookup, hb, List.cons_append] at h ⊢
      exact ih h

/-- After `emplace` the key is present; it names the new thread when it was
absent before. -/
theorem lookup_emplace (k : Nat) (t : Thread) (m : List (Nat × Thread)) :
    (∃ u, (emplace k t m).lookup k = some u) ∧
    (m.lookup k = none → emplace k t m = m ++ [(k, t)] ∧ (emplace k t m).lookup k = some t) ∧
    (emplace k t m).length ≤ m.length + 1 := by
  cases h : m.lookup k with
  | none =>
    have he : emplace k t m = m ++ [(k, t)] := by simp [emplace, h]
    rw [he]
    exact ⟨⟨t, lookup_append_new k t m h⟩, fun _ => ⟨rfl, lookup_append_new k t m h⟩, by simp⟩
  | some u =>
    have he : emplace k t m = m := by simp [emplace, h]
    rw [he]
    exact ⟨⟨u, h⟩, fun hn => by simp at hn, by omega⟩

/-- The state after an accepted `submitTask` that grows the pool. -/
theorem ThreadPool.submitTask_grow (task : Option Nat) (s : Sys El σ)
    (hacc : s.pool.taskQue_.length < s.pool.taskQueMaxThreshold_)
    (hgrow : s.pool.poolMode_ = PoolMode.MODE_CACHED ∧
      inc32 s.pool.taskSize_ > s.pool.idleThreadSize_ ∧
      s.pool.curThreadSize_ < s.pool.threadSizeThreshold_) :
    (ThreadPool.submitTask task s).2.generateId_ = s.generateId_ + 1 ∧
    (ThreadPool.submitTask task s).2.pool.curThreadSize_ = inc32 s.pool.curThreadSize_ ∧
    (ThreadPool.submitTask task s).2.pool.idleThreadSize_ = inc32 s.pool.idleThreadSize_ ∧
    (ThreadPool.submitTask task s).2.pool.threads_
      = emplace (intKey s.generateId_) ⟨s.generateId_⟩ s.pool.threads_ ∧
    (ThreadPool.submitTask task s).2.launched
      = match (emplace (intKey s.generateId_) ⟨s.generateId_⟩ s.pool.threads_).lookup
          (intKey s.generateId_) with
        | some t => s.launched ++ [t.threadId_]
        | none => s.launched := by
  simp only [ThreadPool.submitTask, hacc, if_true]
  rw [if_pos hgrow]
  exact ⟨rfl, rfl, rfl, rfl, rfl⟩

/-- The state after an accepted `submitTask` that does not grow the pool. -/
theorem ThreadPool.submitTask_steady (task : Option Nat) (s : Sys El σ)
    (hacc : s.pool.taskQue_.length < s.pool.taskQueMaxThreshold_)
    (hgrow : ¬ (s.pool.poolMode_ = PoolMode.MODE_CACHED ∧
      inc32 s.pool.taskSize_ > s.pool.idleThreadSize_ ∧
      s.pool.curThreadSize_ < s.pool.threadSizeThreshold_)) :
    (ThreadPool.submitTask task s).2.generateId_ = s.generateId_ ∧
    (ThreadPool.submitTask task s).2.pool.curThreadSize_ = s.pool.curThreadSize_ ∧
    (ThreadPool.submitTask task s).2.pool.idleThreadSize_ = s.pool.idleThreadSize_ ∧
    (ThreadPool.submitTask task s).2.pool.threads_ = s.pool.threads_ ∧
    (ThreadPool.submitTask task s).2.launched = s.launched := by
  simp only [ThreadPool.submitTask, hacc, if_true]
  rw [if_neg hgrow]
  exact ⟨rfl, rfl, rfl, rfl, rfl⟩

/-- C18: an accepted `submitTask` spawns one additional worker exactly when
the mode is `MODE_CACHED`, the pending count after the enqueue is greater than
the idle count and the current worker count is below the maximum.  It then
constructs one `Thread` (taking one id from `generateId_`), starts one
thread, and increments `curThreadSize_` and `idleThreadSize_` (both
`unsigned int`: exactly + 1 unless they wrap at `2^32`); the worker set gains
the entry of the new thread, its id not being a key already.  In every other
case, in particular in `MODE_FIXED`, nothing is constructed, started or
counted; and no submission starts more than one thread. -/
theorem submitTask_growth (task : Option Nat) (s : Sys El σ)
    (hacc : s.pool.taskQue_.length < s.pool.taskQueMaxThreshold_) :
    ((ThreadPool.submitTask task s).2.launched.length = s.launched.length + 1 ↔
      (s.pool.poolMode_ = PoolMode.MODE_CACHED ∧
        inc32 s.pool.taskSize_ > s.pool.idleThreadSize_ ∧
        s.pool.curThreadSize_ < s.pool.threadSizeThreshold_)) ∧
    ((s.pool.poolMode_ = PoolMode.MODE_CACHED ∧
        inc32 s.pool.taskSize_ > s.pool.idleThreadSize_ ∧
        s.pool.curThreadSize_ < s.pool.threadSizeThreshold_) →
      (ThreadPool.submitTask task s).2.generateId_ = s.generateId_ + 1 ∧
      (ThreadPool.submitTask task s).2.pool.curThreadSize_ = inc32 s.pool.curThreadSize_ ∧
      (ThreadPool.submitTask task s).2.pool.idleThreadSize_ = inc32 s.pool.idleThreadSize_ ∧
      (s.pool.curThreadSize_ + 1 < 4294967296 →
        (ThreadPool.submitTask task s).2.pool.curThreadSize_ = s.pool.curThreadSize_ + 1) ∧
      (s.pool.idleThreadSize_ + 1 < 4294967296 →
        (ThreadPool.submitTask task s).2.pool.idleThreadSize_ = s.pool.idleThreadSize_ + 1) ∧
      (s.pool.threads_.lookup (intKey s.generateId_) = none →
        (ThreadPool.submitTask task s).2.pool.threads_
          = s.pool.threads_ ++ [(intKey s.generateId_, ⟨s.generateId_⟩)] ∧
        (ThreadPool.submitTask task s).2.launched = s.launched ++ [s.generateId_])) ∧
    (¬ (s.pool.poolMode_ = PoolMode.MODE_CACHED ∧
        inc32 s.pool.taskSize_ > s.pool.idleThreadSize_ ∧
        s.pool.curThreadSize_ < s.pool.threadSizeThreshold_) →
      (ThreadPool.submitTask task s).2.generateId_ = s.generateId_ ∧
      (ThreadPool.submitTask task s).2.pool.curThreadSize_ = s.pool.curThreadSize_ ∧
      (ThreadPool.submitTask task s).2.pool.idleThreadSize_ = s.pool.idleThreadSize_ ∧
      (ThreadPool.submitTask task s).2.pool.threads_ = s.pool.threads_ ∧
      (ThreadPool.submitTask task s).2.launched = s.launched) ∧
    (s.pool.poolMode_ = PoolMode.MODE_FIXED →
      (ThreadPool.submitTask task s).2.pool.threads_ = s.pool.threads_ ∧
      (ThreadPool.submitTask task s).2.launched = s.launched) ∧
    (ThreadPool.submitTask task s).2.launched.length ≤ s.launched.length + 1 ∧
    (ThreadPool.submitTask task s).2.pool.threads_.length ≤ s.pool.threads_.length + 1 ∧
    (ThreadPool.submitTask task s).2.generateId_ ≤ s.generateId_ + 1 := by
  have hem := lookup_emplace (intKey s.generateId_) ⟨s.generateId_⟩ s.pool.threads_
  by_cases hgrow : s.pool.poolMode_ = PoolMode.MODE_CACHED ∧
      inc32 s.pool.taskSize_ > s.pool.idleThreadSize_ ∧
      s.pool.curThreadSize_ < s.pool.threadSizeThreshold_
  · obtain ⟨h1, h2, h3, h4, h5⟩ := ThreadPool.submitTask_grow task s hacc hgrow
    obtain ⟨⟨u, hu⟩, hfresh, hlen⟩ := hem
    have hl : (ThreadPool.submitTask task s).2.launched = s.launched ++ [u.threadId_] := by
      rw [h5, hu]
    refine ⟨⟨fun _ => hgrow, fun _ => by rw [hl]; simp⟩, ?_, fun hn => absurd hgrow hn, ?_,
      by rw [hl]; simp, by rw [h4]; exact hlen, by rw [h1]⟩
    · intro _
      refine ⟨h1, h2, h3, ?_, ?_, ?_⟩
      · intro hlt
        rw [h2, inc32_eq_mod]
        exact Nat.mod_eq_of_lt hlt
      · intro hlt
        rw [h3, inc32_eq_mod]
        exact Nat.mod_eq_of_lt hlt
      · intro hnone
        obtain ⟨he, hlk⟩ := hfresh hnone
        refine ⟨by rw [h4, he], ?_⟩
        rw [h5, hlk]
    · intro hfix
      rw [hfix] at hgrow
      exact absurd hgrow.1 (by decide)
  · obtain ⟨h1, h2, h3, h4, h5⟩ := ThreadPool.submitTask_steady task s hacc hgrow
    refine ⟨⟨fun h => ?_, fun h => absurd h hgrow⟩, fun h => absurd h hgrow,
      fun _ => ⟨h1, h2, h3, h4, h5⟩, fun _ => ⟨h4, h5⟩, by rw [h5]; omega, by rw [h4]; omega,
      by rw [h1]; omega⟩
    rw [h5] at h
    omega

end GrowthTheorems

/-- C18, evaluated: the first submission to the elastic pool `Sys.elastic`
spawns worker 0; a submission to the new `MODE_FIXED` pool spawns none. -/
theorem submitTask_growth_witness :
    Sys.elastic.pool.taskQue_.length < Sys.elastic.pool.taskQueMaxThreshold_ ∧
    (Sys.elastic.pool.poolMode_ = PoolMode.MODE_CACHED ∧
      inc32 Sys.elastic.pool.taskSize_ > Sys.elastic.pool.idleThreadSize_ ∧
      Sys.elastic.pool.curThreadSize_ < Sys.elastic.pool.threadSizeThreshold_) ∧
    (ThreadPool.submitTask (some 0) Sys.elastic).2.pool.threads_ = [(0, ⟨0⟩)] ∧
    (ThreadPool.submitTask (some 0) Sys.elastic).2.launched = [0] ∧
    (ThreadPool.submitTask (some 0) Sys.elastic).2.pool.curThreadSize_ = 1 ∧
    (ThreadPool.submitTask (some 0) Sys.sample).2.launched = [] :=
  ⟨by decide, by decide,
   (((submitTask_growth (some 0) Sys.elastic (by decide)).2.1 (by decide)).2.2.2.2.2 rfl).1,
   (((submitTask_growth (some 0) Sys.elastic (by decide)).2.1 (by decide)).2.2.2.2.2 rfl).2,
   ((submitTask_growth (some 0) Sys.elastic (by decide)).2.1 (by decide)).2.2.2.1 (by decide),
   ((submitTask_growth (some 0) Sys.sample (by decide)).2.2.2.1 rfl).2⟩

/-! ## Theorems: `MyTask` -/

theorem sum_range'_closed (k : Nat) : ∀ b : Nat,
    2 * (List.range' b k).sum + k = 2 * k * b + k * k := by
  induction k with
  | zero => intro b; simp
  | succ k ih =>
    intro b
    have h := ih (b + 1)
    simp only [List.range'_succ, List.sum_cons]
    nlinarith [h]

/-- The loop adds the integers still to visit, as long as nothing wraps. -/
theorem MyTask.loop_eq (e : Int) (he : e < 2147483647) (k : Nat) :
    ∀ (i sum fuel : Nat), (i : Int) + k = e + 1 → k < fuel →
      sum + (List.range' i k).sum < 18446744073709551616 →
      MyTask.loop e fuel i sum = some (sum + (List.range' i k).sum) := by
  induction k with
  | zero =>
    intro i sum fuel hi hf _
    cases fuel with
    | zero => omega
    | succ f =>
      have hgt : ¬ (i : Int) ≤ e := by omega
      simp [MyTask.loop, hgt]
  | succ k ih =>
    intro i sum fuel hi hf hsum
    cases fuel with
    | zero => omega
    | succ f =>
      have hle : (i : Int) ≤ e := by omega
      have hne : ¬ (i : Int) = 2147483647 := by omega
      simp only [List.range'_succ, List.sum_cons] at hsum ⊢
      have hstep : (sum + ((i : Int) % 18446744073709551616).toNat) % 18446744073709551616
          = sum + i := by omega
      have hrec := ih (i + 1) (sum + i) f (by push_cast; omega) (by omega) (by omega)
      simp only [MyTask.loop, hle, hne, if_true, if_false, hstep]
      rw [show ((i : Int) + 1) = ((i + 1 : Nat) : Int) by push_cast; rfl, hrec, Nat.add_assoc]

/-- Value of `MyTask(b, e).run()` for `1 <= b <= e < INT_MAX`, given enough
fuel for the `e - b + 2` evaluations of the loop test. -/
theorem MyTask.run_eq (b e fuel : Nat) (hbe : b ≤ e) (he : e < 2147483647)
    (hfuel : e + 1 - b < fuel) :
    MyTask.run fuel b e = some (Any.ofValue CppTy.ull (sumFromTo b e)) ∧
    2 * sumFromTo b e = (b + e) * (e + 1 - b) ∧
    sumFromTo b e < 18446744073709551616 := by
  have hclosed := sum_range'_closed (e + 1 - b) b
  have h2 : 2 * sumFromTo b e = (b + e) * (e + 1 - b) := by
    unfold sumFromTo
    have hk : e + 1 - b = (e - b) + 1 := by omega
    rw [hk] at hclosed ⊢
    have hbe2 : b + e = 2 * b + (e - b) := by omega
    rw [hbe2]
    nlinarith [hclosed]
  have hlt : sumFromTo b e < 18446744073709551616 := by
    have h3 : (b + e) * (e + 1 - b) ≤ 4294967296 * 2147483648 :=
      Nat.mul_le_mul (by omega) (by omega)
    omega
  refine ⟨?_, h2, hlt⟩
  have hloop := MyTask.loop_eq (e : Int) (by exact_mod_cast he) (e + 1 - b) b 0 fuel
    (by push_cast [Nat.cast_sub (show b ≤ e + 1 by omega)]; omega) hfuel
    (by rw [Nat.zero_add]; exact hlt)
  simp only [MyTask.run, hloop, Nat.zero_add, Option.map_some', sumFromTo]

/-- C17 (amended): for all integers `1 <= b <= e < 2^31 - 1`,
`MyTask(b, e).run()` returns the exact sum of the integers `b..e` as an
`unsigned long long` (no wrap-around at `2^64`); for the four ranges
1..100000000, 100000001..200000000, 200000001..300000000 and
300000001..400000000 of the example the four sums added together are
80,000,000,200,000,000, again without wrap-around. -/
theorem MyTask_run_sum (b e fuel : Nat) (_hb : 1 ≤ b) (hbe : b ≤ e) (he : e < 2 ^ 31 - 1)
    (hfuel : e + 1 - b < fuel) :
    MyTask.run fuel b e = some (Any.ofValue CppTy.ull (sumFromTo b e)) ∧
    2 * sumFromTo b e = (b + e) * (e + 1 - b) ∧
    sumFromTo b e < 2 ^ 64 ∧
    MyTask.run 100000001 1 100000000 = some (Any.ofValue CppTy.ull (5000000050000000 : Nat)) ∧
    MyTask.run 100000001 100000001 200000000
      = some (Any.ofValue CppTy.ull (15000000050000000 : Nat)) ∧
    MyTask.run 100000001 200000001 300000000
      = some (Any.ofValue CppTy.ull (25000000050000000 : Nat)) ∧
    MyTask.run 100000001 300000001 400000000
      = some (Any.ofValue CppTy.ull (35000000050000000 : Nat)) ∧
    mainTotal 5000000050000000 15000000050000000 25000000050000000 35000000050000000
      = 80000000200000000 ∧
    5000000050000000 + 15000000050000000 + 25000000050000000 + 35000000050000000 < 2 ^ 64 := by
  have he1 : e < 2147483647 := by
    have : (2 : Nat) ^ 31 - 1 = 2147483647 := by norm_num
    omega
  obtain ⟨h1, h2, h3⟩ := MyTask.run_eq b e fuel hbe he1 hfuel
  have value : ∀ (x y v : Nat), x ≤ y → y < 2147483647 → y + 1 - x < 100000001 →
      (x + y) * (y + 1 - x) = 2 * v →
      MyTask.run 100000001 x y = some (Any.ofValue CppTy.ull v) := by
    intro x y v hxy hy hf hv
    obtain ⟨g1, g2, _⟩ := MyTask.run_eq x y 100000001 hxy hy hf
    have : sumFromTo x y = v := by omega
    rw [g1, this]
  refine ⟨h1, h2, by norm_num; exact h3, ?_, ?_, ?_, ?_, by decide, by norm_num⟩
  · exact_mod_cast value 1 100000000 5000000050000000 (by norm_num) (by norm_num)
      (by norm_num) (by norm_num)
  · exact_mod_cast value 100000001 200000000 15000000050000000 (by norm_num) (by norm_num)
      (by norm_num) (by norm_num)
  · exact_mod_cast value 200000001 300000000 25000000050000000 (by norm_num) (by norm_num)
      (by norm_num) (by norm_num)
  · exact_mod_cast value 300000001 400000000 35000000050000000 (by norm_num) (by norm_num)
      (by norm_num) (by norm_num)

/-- C17 as stated fails: the four sums of the example are 5000000050000000,
15000000050000000, 25000000050000000 and 35000000050000000, and added
together they are 80,000,000,200,000,000, not 80,000,000,100,000,000. -/
theorem MyTask_total_differs :
    MyTask.run 100000001 1 100000000 = some (Any.ofValue CppTy.ull (5000000050000000 : Nat)) ∧
    MyTask.run 100000001 100000001 200000000
      = some (Any.ofValue CppTy.ull (15000000050000000 : Nat)) ∧
    MyTask.run 100000001 200000001 300000000
      = some (Any.ofValue CppTy.ull (25000000050000000 : Nat)) ∧
    MyTask.run 100000001 300000001 400000000
      = some (Any.ofValue CppTy.ull (35000000050000000 : Nat)) ∧
    mainTotal 5000000050000000 15000000050000000 25000000050000000 35000000050000000
      ≠ 80000000100000000 := by
  have value : ∀ (x y v : Nat), x ≤ y → y < 2147483647 → y + 1 - x < 100000001 →
      (x + y) * (y + 1 - x) = 2 * v →
      MyTask.run 100000001 x y = some (Any.ofValue CppTy.ull v) := by
    intro x y v hxy hy hf hv
    obtain ⟨g1, g2, _⟩ := MyTask.run_eq x y 100000001 hxy hy hf
    have : sumFromTo x y = v := by omega
    rw [g1, this]
  refine ⟨?_, ?_, ?_, ?_, by decide⟩
  · exact_mod_cast value 1 100000000 5000000050000000 (by norm_num) (by norm_num)
      (by norm_num) (by norm_num)
  · exact_mod_cast value 100000001 200000000 15000000050000000 (by norm_num) (by norm_num)
      (by norm_num) (by norm_num)
  · exact_mod_cast value 200000001 300000000 25000000050000000 (by norm_num) (by norm_num)
      (by norm_num) (by norm_num)
  · exact_mod_cast value 300000001 400000000 35000000050000000 (by norm_num) (by norm_num)
      (by norm_num) (by norm_num)

/-- C17 (amended), evaluated: `MyTask(1, 100).run()` returns 5050. -/
theorem MyTask_run_sum_witness :
    (1 : Nat) ≤ 1 ∧ (1 : Nat) ≤ 100 ∧ (100 : Nat) < 2 ^ 31 - 1 ∧
    sumFromTo 1 100 = 5050 ∧
    MyTask.run 101 ((1 : Nat) : Int) ((100 : Nat) : Int)
      = some (Any.ofValue CppTy.ull (sumFromTo 1 100)) :=
  ⟨by decide, by decide, by decide, by decide,
   (MyTask_run_sum 1 100 101 (by decide) (by decide) (by decide) (by decide)).1⟩

/-! ## Theorems: idle-timeout exit and teardown -/

/-- The idle-timeout exit is taken exactly when the wait timed out, the idle
time is at least `THREAD_MAX_IDLE_TIME` and the current worker count exceeds
the initial count; it decrements both counters, and the queue is not
looked at. -/
theorem ThreadPool.threadFunc_timedWake_exit (threadId : Nat) (b : Bool) (d : Int)
    (p : ThreadPool) :
    ((ThreadPool.threadFunc_timedWake threadId b d p).1 = WorkerPc.exited ↔
      (b = true ∧ d ≥ 60 ∧ p.curThreadSize_ > p.initThreadSize_)) ∧
    ((ThreadPool.threadFunc_timedWake threadId b d p).1 = WorkerPc.exited →
      (ThreadPool.threadFunc_timedWake threadId b d p).2.curThreadSize_
        = dec32 p.curThreadSize_ ∧
      (ThreadPool.threadFunc_timedWake threadId b d p).2.idleThreadSize_
        = dec32 p.idleThreadSize_ ∧
      (ThreadPool.threadFunc_timedWake threadId b d p).2.threads_ = erase threadId p.threads_ ∧
      (p.curThreadSize_ < 4294967296 →
        p.initThreadSize_ ≤ (ThreadPool.threadFunc_timedWake threadId b d p).2.curThreadSize_)) ∧
    (ThreadPool.threadFunc_timedWake threadId b d p).2.taskQue_ = p.taskQue_ := by
  unfold ThreadPool.threadFunc_timedWake THREAD_MAX_IDLE_TIME
  split_ifs with h
  · refine ⟨⟨fun _ => h, fun _ => rfl⟩, fun _ => ⟨rfl, rfl, rfl, ?_⟩, rfl⟩
    intro hlt
    have h1 : p.initThreadSize_ < p.curThreadSize_ := h.2.2
    show p.initThreadSize_ ≤ dec32 p.curThreadSize_
    rw [dec32_eq_mod]
    omega
  · refine ⟨⟨fun hx => ?_, fun hc => absurd hc h⟩, fun hx => ?_, rfl⟩
    · exact absurd hx (by simp)
    · exact absurd hx (by simp)

/-- In `MODE_FIXED` the loop test never sends a worker to the timed wait. -/
theorem ThreadPool.threadFunc_check_fixed (threadId : Nat) (p : ThreadPool)
    (h : p.poolMode_ = PoolMode.MODE_FIXED) :
    (ThreadPool.threadFunc_check threadId p).1 ≠ WorkerPc.waitTimed := by
  cases hq : p.taskQue_ with
  | nil =>
    simp only [ThreadPool.threadFunc_check, hq, h]
    split_ifs <;> simp_all
  | cons task rest =>
    rw [ThreadPool.threadFunc_check_cons threadId p task rest hq]
    simp

/-- The exit of a stopped worker at the loop test happens only on an empty
queue: the locked part of `threadFunc` changes the worker set only then. -/
theorem ThreadPool.threadFunc_check_erase (threadId : Nat) (p : ThreadPool)
    (h : (ThreadPool.threadFunc_check threadId p).1 = WorkerPc.exited) :
    p.taskQue_ = [] ∧ p.isPoolRunning_ = false := by
  cases hq : p.taskQue_ with
  | nil =>
    refine ⟨rfl, ?_⟩
    cases hr : p.isPoolRunning_ with
    | false => rfl
    | true =>
      simp only [ThreadPool.threadFunc_check, hq, hr] at h
      split_ifs at h
      simp_all
  | cons task rest =>
    rw [ThreadPool.threadFunc_check_cons threadId p task rest hq] at h
    simp at h

section FloorTheorems

variable {Ty : Type} {El : Ty → Type} {σ : Type}

/-- The worker steps under the lock do not write `initThreadSize_`. -/
theorem ThreadPool.threadFunc_initThreadSize (threadId : Nat) (b : Bool) (d : Int)
    (p : ThreadPool) :
    (ThreadPool.threadFunc_check threadId p).2.initThreadSize_ = p.initThreadSize_ ∧
    (ThreadPool.threadFunc_timedWake threadId b d p).2.initThreadSize_ = p.initThreadSize_ := by
  refine ⟨?_, ?_⟩
  · cases hq : p.taskQue_ with
    | nil =>
      simp only [ThreadPool.threadFunc_check, hq]
      split_ifs <;> rfl
    | cons task rest =>
      rw [ThreadPool.threadFunc_check_cons threadId p task rest hq]
  · unfold ThreadPool.threadFunc_timedWake
    split_ifs <;> rfl

/-- One event keeps the initial count and the maximum, and keeps the current
worker count at or above the initial count, as long as the counter cannot
wrap (the maximum is below `2^32`). -/
theorem Machine.step_floor (m : Machine El σ) (e : Event)
    (hK : m.sys.pool.threadSizeThreshold_ < 4294967296)
    (h : m.sys.pool.initThreadSize_ ≤ m.sys.pool.curThreadSize_ ∧
      m.sys.pool.curThreadSize_ < 4294967296) :
    (m.step e).sys.pool.threadSizeThreshold_ = m.sys.pool.threadSizeThreshold_ ∧
    (m.step e).sys.pool.initThreadSize_ = m.sys.pool.initThreadSize_ ∧
    m.sys.pool.initThreadSize_ ≤ (m.step e).sys.pool.curThreadSize_ ∧
    (m.step e).sys.pool.curThreadSize_ < 4294967296 := by
  obtain ⟨h1, h2⟩ := h
  cases e with
  | submit task =>
    have hcfg := ThreadPool.submitTask_config task m.sys
    refine ⟨hcfg.2.1, hcfg.2.2.2.2, ?_⟩
    show m.sys.pool.initThreadSize_ ≤ (ThreadPool.submitTask task m.sys).2.pool.curThreadSize_ ∧
      (ThreadPool.submitTask task m.sys).2.pool.curThreadSize_ < 4294967296
    simp only [ThreadPool.submitTask]
    split_ifs with ha hg
    · have hlt : m.sys.pool.curThreadSize_ < m.sys.pool.threadSizeThreshold_ := hg.2.2
      show m.sys.pool.initThreadSize_ ≤ inc32 m.sys.pool.curThreadSize_ ∧
        inc32 m.sys.pool.curThreadSize_ < 4294967296
      rw [inc32_eq_mod]
      omega
    · exact ⟨h1, h2⟩
    · exact ⟨h1, h2⟩
  | work k b d =>
    cases hk : m.workers[k]? with
    | none =>
      rw [Machine.step_work_none m k b d hk]
      exact ⟨rfl, rfl, h1, h2⟩
    | some wk =>
      have hinit := ThreadPool.threadFunc_initThreadSize wk.threadId b d m.sys.pool
      cases hpc : wk.pc with
      | acquire =>
        have hcfg := ThreadPool.threadFunc_check_config wk.threadId m.sys.pool
        have hcur : (ThreadPool.threadFunc_check wk.threadId m.sys.pool).2.curThreadSize_
            = m.sys.pool.curThreadSize_ := hcfg.2.2.1
        cases hq : m.sys.pool.taskQue_ with
        | nil =>
          rw [Machine.step_work_idle m k b d wk hk hpc hq]
          exact ⟨hcfg.2.1, hinit.1, by rw [hcur]; exact h1, by rw [hcur]; exact h2⟩
        | cons task rest =>
          rw [Machine.step_work_take m k b d wk task rest hk hpc hq]
          exact ⟨hcfg.2.1, hinit.1, by rw [hcur]; exact h1, by rw [hcur]; exact h2⟩
      | waitTimed =>
        have hcfg := ThreadPool.threadFunc_timedWake_config wk.threadId b d m.sys.pool
        have hex := ThreadPool.threadFunc_timedWake_exit wk.threadId b d m.sys.pool
        rw [Machine.step_work_wake m k b d wk hk hpc]
        refine ⟨hcfg.2.1, hinit.2, ?_, Nat.lt_of_le_of_lt hcfg.2.2.2 h2⟩
        show m.sys.pool.initThreadSize_
          ≤ (ThreadPool.threadFunc_timedWake wk.threadId b d m.sys.pool).2.curThreadSize_
        by_cases hx : (ThreadPool.threadFunc_timedWake wk.threadId b d m.sys.pool).1
            = WorkerPc.exited
        · exact (hex.2.1 hx).2.2.2 h2
        · have hsame : (ThreadPool.threadFunc_timedWake wk.threadId b d m.sys.pool).2
              = m.sys.pool := by
            have hn : ¬ (b = true ∧ d ≥ 60 ∧ m.sys.pool.curThreadSize_ > m.sys.pool.initThreadSize_) :=
              fun hc => hx (hex.1.mpr hc)
            unfold ThreadPool.threadFunc_timedWake THREAD_MAX_IDLE_TIME
            rw [if_neg hn]
          rw [hsame]
          exact h1
      | waitForever =>
        rw [Machine.step_work_woken m k b d wk hk hpc]
        exact ⟨rfl, rfl, h1, h2⟩
      | running t =>
        rw [Machine.step_work_exec m k b d wk t hk hpc]
        exact ⟨rfl, rfl, h1, h2⟩
      | exited =>
        rw [Machine.step_work_exited m k b d wk hk hpc]
        exact ⟨rfl, rfl, h1, h2⟩

/-- Shrink floor over a run of events: from a state in which the current
worker count is at least the initial count (as after `start(n)`), with both
the count and the maximum worker count below `2^32`, the current worker count
never drops below the initial count. -/
theorem Machine.run_floor (evs : List Event) :
    ∀ m : Machine El σ, m.sys.pool.threadSizeThreshold_ < 4294967296 →
      m.sys.pool.initThreadSize_ ≤ m.sys.pool.curThreadSize_ →
      m.sys.pool.curThreadSize_ < 4294967296 →
      (Machine.run evs m).sys.pool.initThreadSize_ = m.sys.pool.initThreadSize_ ∧
      m.sys.pool.initThreadSize_ ≤ (Machine.run evs m).sys.pool.curThreadSize_ := by
  induction evs with
  | nil => intro m _ h _; exact ⟨rfl, h⟩
  | cons e es ih =>
    intro m hK h1 h2
    obtain ⟨g1, g2, g3, g4⟩ := Machine.step_floor m e hK ⟨h1, h2⟩
    obtain ⟨g5, g6⟩ := ih (m.step e) (by rw [g1]; exact hK) (by rw [g2]; exact g3) g4
    exact ⟨by simp only [Machine.run]; rw [g5, g2], by simp only [Machine.run]; rw [← g2]; exact g6⟩

end FloorTheorems

/-- C11, the code at the failing input.  In an elastic pool started with 1
worker and grown to 2, both workers are inside the timed wait (entered on an
empty queue) when task 2 is submitted and accepted.  Worker 1 then returns
from `wait_for` with a timeout after 60 seconds of idleness: it takes the
idle-timeout exit (erases its entry, both counters go down by one) although
the queue holds task 2. -/
theorem idle_exit_nonempty_queue :
    Machine.refilled.sys.pool.poolMode_ = PoolMode.MODE_CACHED ∧
    Machine.refilled.sys.pool.isPoolRunning_ = true ∧
    Machine.refilled.workers
      = [{ threadId := 0, pc := WorkerPc.waitTimed }, { threadId := 1, pc := WorkerPc.waitTimed }] ∧
    Machine.refilled.sys.pool.taskQue_ = [some 2] ∧
    (Machine.refilled.sys.pool.initThreadSize_, Machine.refilled.sys.pool.curThreadSize_,
      Machine.refilled.sys.pool.idleThreadSize_) = (1, 2, 2) ∧
    Machine.refilled.sys.pool.threads_ = [(0, ⟨0⟩), (1, ⟨1⟩)] ∧
    (Machine.refilled.step (Event.work 1 true 60)).workers
      = [{ threadId := 0, pc := WorkerPc.waitTimed }, { threadId := 1, pc := WorkerPc.exited }] ∧
    (Machine.refilled.step (Event.work 1 true 60)).sys.pool.threads_ = [(0, ⟨0⟩)] ∧
    (Machine.refilled.step (Event.work 1 true 60)).sys.pool.taskQue_ = [some 2] ∧
    ((Machine.refilled.step (Event.work 1 true 60)).sys.pool.curThreadSize_,
      (Machine.refilled.step (Event.work 1 true 60)).sys.pool.idleThreadSize_) = (1, 1) := by
  refine ⟨rfl, rfl, ?_, rfl, ?_, rfl, ?_, rfl, rfl, ?_⟩ <;> decide

/-- C12, the code at the failing input.  The same elastic pool is stopped
(the destructor sets `isPoolRunning_ = false`) while task 2 is queued and
both workers are inside the timed wait.  Worker 1 returns from `wait_for`
with a timeout after 60 seconds of idleness and deregisters while the queue
is not empty.  Worker 0 remains, takes task 2, runs it and deregisters on
the empty queue; only then is the worker set empty, with all three tasks
executed. -/
theorem teardown_deregisters_nonempty_queue :
    Machine.refilled.stop.sys.pool.isPoolRunning_ = false ∧
    Machine.refilled.stop.sys.pool.taskQue_ = [some 2] ∧
    Machine.refilled.stop.sys.pool.threads_ = [(0, ⟨0⟩), (1, ⟨1⟩)] ∧
    (Machine.refilled.stop.step (Event.work 1 true 60)).sys.pool.threads_ = [(0, ⟨0⟩)] ∧
    (Machine.refilled.stop.step (Event.work 1 true 60)).sys.pool.taskQue_ = [some 2] ∧
    (Machine.refilled.stop.step (Event.work 1 true 60)).sys.pool.allExited = false ∧
    (Machine.run Event.drain (Machine.refilled.stop.step (Event.work 1 true 60))).sys.pool.allExited
      = true ∧
    (Machine.run Event.drain (Machine.refilled.stop.step (Event.work 1 true 60))).sys.heap.runLog
      = [0, 1, 2] ∧
    (Machine.run Event.drain (Machine.refilled.stop.step (Event.work 1 true 60))).sys.pool.taskQue_
      = [] := by
  refine ⟨rfl, rfl, rfl, rfl, rfl, rfl, rfl, rfl, rfl⟩

end ThreadPoolSpec
